/-
Verification of the Green Agent Benchmark No-Limit Texas Hold'em engine
(`green_agent_benchmark/cards.py` and `green_agent_benchmark/engine.py`)
against its natural-language specification.

The Python sources are shallowly embedded as executable Lean definitions:
pure helpers become Lean functions, the mutable engine state becomes explicit
state passing, chips are `Int` (Python integers), fallible paths return
`Except`.  Card ranks are carried directly as their integer codes 2..14
(`RANK_TO_INT` in `cards.py` is a fixed bijection from rank characters).
Python dictionaries keyed by seat id are represented as lists indexed by seat
(the orchestration layer always builds the seat map as `{0, 1, ..., n-1}` in
increasing order, which is also the dict insertion order the engine iterates
in).
-/
import Mathlib

namespace GreenBench

/-! ## Cards (`cards.py`) -/

/-- A playing card: `rank` is the integer code 2..14 (Ace high), `suit` is
0..3 for the symbols `s`, `h`, `d`, `c`. -/
structure Card where
  rank : Nat
  suit : Nat
deriving DecidableEq, Repr

/-- Insert into a descending-sorted list (used to model Python
`sorted(..., reverse=True)`). -/
def insertDesc (x : Nat) : List Nat → List Nat
  | [] => [x]
  | y :: ys => if x ≥ y then x :: y :: ys else y :: insertDesc x ys

/-- `sorted(l, reverse=True)`. -/
def sortDesc (l : List Nat) : List Nat := l.foldr insertDesc []

/-- First-occurrence deduplication (accumulator form, so the kernel can
evaluate it). -/
def dedupAux {α : Type} [DecidableEq α] (seen : List α) : List α → List α
  | [] => []
  | x :: xs => if x ∈ seen then dedupAux seen xs else x :: dedupAux (x :: seen) xs

/-- First-occurrence deduplication; on a sorted list this models
`sorted(set(l), reverse=True)`, and its length models `len(set(l))`. -/
def dedupNat (l : List Nat) : List Nat := dedupAux [] l

/-- First-occurrence deduplication over integers (used for the side-pot
contribution levels, which Python collects into a set before sorting). -/
def dedupInt (l : List Int) : List Int := dedupAux [] l

/-- Set equality of two lists viewed as finite sets (Python `==` on sets). -/
def listSetEq (a b : List Nat) : Bool :=
  a.all (fun x => x ∈ b) && b.all (fun x => x ∈ a)

/-- One test of the straight-detection loop in `evaluate_five`:
`window = {start - i for i in range(5)}; window == rank_set and len(rank_set) == 5`. -/
def windowEq (rankSet : List Nat) (start : Nat) : Bool :=
  listSetEq [start, start - 1, start - 2, start - 3, start - 4] rankSet
    && rankSet.length == 5

/-- The straight-high search of `evaluate_five`: the loop
`for start in range(14, 3, -1)` followed by the wheel special case. -/
def straightHigh (rankSet : List Nat) : Option Nat :=
  match ((List.range 11).map (fun i => 14 - i)).find? (fun s => windowEq rankSet s) with
  | some s => some s
  | none => if listSetEq [14, 5, 4, 3, 2] rankSet then some 5 else none

/-- `max(l)` over a list of naturals (the call sites are all nonempty). -/
def listMax (l : List Nat) : Nat := l.foldl Nat.max 0

/-- `max(counts, key=lambda r: (counts[r], r))`: the rank maximising
(count, rank) lexicographically. -/
def maxByCountRank (ranks uniqueRanks : List Nat) : Nat :=
  uniqueRanks.foldl
    (fun best r =>
      if ranks.count best < ranks.count r
          || (ranks.count best == ranks.count r && best < r) then r else best)
    0

/-- Body of `evaluate_five` once the descending rank list and the flush flag
have been computed (everything below the `suits` line of the source is a
function of these two values). -/
def evalFiveAux (ranks : List Nat) (isFlush : Bool) : Nat × List Nat :=
  let uniqueRanks := dedupNat ranks
  let rankSet := uniqueRanks
  let sHigh := straightHigh rankSet
  let isStraight := sHigh.isSome
  let cv := sortDesc (uniqueRanks.map (fun r => ranks.count r))
  if isFlush && isStraight then (9, [sHigh.getD 0])
  else if cv == [4, 1] then
    let fourRank := maxByCountRank ranks uniqueRanks
    let kicker := listMax (uniqueRanks.filter (fun r => r ≠ fourRank))
    (8, [fourRank, kicker])
  else if cv == [3, 2] then
    let tripsRank := listMax (uniqueRanks.filter (fun r => ranks.count r == 3))
    let pairRank := listMax (uniqueRanks.filter (fun r => ranks.count r == 2))
    (7, [tripsRank, pairRank])
  else if isFlush then (6, ranks)
  else if isStraight then (5, [sHigh.getD 0])
  else if cv == [3, 1, 1] then
    let tripsRank := listMax (uniqueRanks.filter (fun r => ranks.count r == 3))
    let kickers := sortDesc (uniqueRanks.filter (fun r => r ≠ tripsRank))
    (4, tripsRank :: kickers)
  else if cv == [2, 2, 1] then
    let pairRanks := sortDesc (uniqueRanks.filter (fun r => ranks.count r == 2))
    let kicker := listMax (uniqueRanks.filter (fun r => ranks.count r == 1))
    (3, pairRanks ++ [kicker])
  else if cv == [2, 1, 1, 1] then
    let pairRank := listMax (uniqueRanks.filter (fun r => ranks.count r == 2))
    let kickers := sortDesc (uniqueRanks.filter (fun r => r ≠ pairRank))
    (2, pairRank :: kickers)
  else (1, ranks)

/-- `len(set(suits)) == 1`. -/
def isFlushOf (cards : List Card) : Bool :=
  (dedupNat (cards.map Card.suit)).length == 1

/-- `evaluate_five(cards) -> (category, kickers)`. -/
def evaluateFive (cards : List Card) : Nat × List Nat :=
  evalFiveAux (sortDesc (cards.map Card.rank)) (isFlushOf cards)

/-- Lexicographic comparison of kicker lists (Python tuple comparison). -/
def listLex : List Nat → List Nat → Ordering
  | [], [] => .eq
  | [], _ :: _ => .lt
  | _ :: _, [] => .gt
  | a :: as, b :: bs =>
    if a < b then .lt else if b < a then .gt else listLex as bs

/-- Python comparison of `(category, kickers)` tuples. -/
def rankCmp (a b : Nat × List Nat) : Ordering :=
  if a.1 < b.1 then .lt else if b.1 < a.1 then .gt else listLex a.2 b.2

/-- `itertools.combinations(cards, n)` (same element order). -/
def combos : Nat → List Card → List (List Card)
  | 0, _ => [[]]
  | _ + 1, [] => []
  | n + 1, x :: xs => (combos n xs).map (fun c => x :: c) ++ combos (n + 1) xs

/-- `best_hand_rank(cards)`: maximum of `evaluate_five` over all 5-card
subsets, starting from `(0, ())`. -/
def bestHandRank (cards : List Card) : Nat × List Nat :=
  (combos 5 cards).foldl
    (fun best c =>
      let v := evaluateFive c
      if rankCmp v best == .gt then v else best)
    (0, [])

/-! ## Engine data model (`engine.py`) -/

/-- Hard errors the engine can raise.  `typeError` models the Python
`TypeError` raised by `AgentInterface.act`, `notImplemented` the
`NotImplementedError` for straddle / unknown odd-chip rules,
`illegalAction` the internal `IllegalActionError`, `stopIteration` deck
exhaustion, and `outOfFuel` non-termination of the betting `while` loop
(the Lean embedding runs it on explicit fuel). -/
inductive EngineError
  | typeError
  | notImplemented
  | illegalAction
  | stopIteration
  | outOfFuel
deriving DecidableEq, Repr

/-- The two fallback-policy strings that occur: `"fold"` and the default
`"check_if_zero_else_fold"` (the code only ever compares the string against
`"fold"`). -/
inductive FallbackPolicy
  | fold
  | checkIfZeroElseFold
deriving DecidableEq, Repr

/-- The odd-chip rule string: `"button_left"` is the only implemented value;
anything else raises `NotImplementedError`. -/
inductive OddChipsRule
  | buttonLeft
  | unsupported
deriving DecidableEq, Repr

/-- `EngineConfig`.  `table_id` is an opaque label the engine only echoes
into log payloads and is omitted. -/
structure EngineConfig where
  seatCount : Nat
  smallBlind : Int
  bigBlind : Int
  startingStack : Int
  timePerDecisionMs : Int := 60000
  autoTopUp : Bool := true
  ante : Int := 0
  straddle : Bool := false
  runoutWhenAllIn : Bool := true
  oddChipsRule : OddChipsRule := .buttonLeft
  timeoutFallbackPolicy : FallbackPolicy := .checkIfZeroElseFold
  illegalActionFallbackPolicy : FallbackPolicy := .checkIfZeroElseFold
deriving Repr

/-- `PlayerRuntimeState`.  The display `name` is an opaque label the engine
only echoes into log payloads and is omitted. -/
structure Player where
  seatId : Nat
  stack : Int
  holeCards : List Card := []
  bet : Int := 0
  folded : Bool := false
  allIn : Bool := false
  illegalActions : Nat := 0
  timeouts : Nat := 0
  sittingOut : Bool := false
deriving DecidableEq, Repr

/-- `PlayerRuntimeState.reset_for_hand`. -/
def Player.resetForHand (p : Player) (startingStack : Int) : Player :=
  { p with
    stack := startingStack
    bet := 0
    folded := false
    allIn := false
    holeCards := []
    sittingOut := false }

structure BettingRoundResult where
  lastAggressor : Option Nat
  aggressionOccurred : Bool
  everyoneAllIn : Bool
deriving DecidableEq, Repr

structure Pot where
  size : Int
  eligibleSeats : List Nat
deriving DecidableEq, Repr

/-- `ActionHistoryEntry` (`schemas.py`). -/
structure ActionHistoryEntry where
  seatId : Nat
  action : String
  amount : Option Int
  street : String
  toCall : Int
  minRaiseTo : Int
deriving DecidableEq, Repr

/-- `ActionRequest` (`schemas.py`).  The purely descriptive string fields
(`table_id`, `hand_id`, `blinds`, `rng_tag`) are per-hand constants the
engine copies through without reading and are omitted. -/
structure ActionRequest where
  seatCount : Nat
  seatId : Nat
  buttonSeat : Nat
  stackMap : List (Nat × Int)
  pot : Int
  toCall : Int
  minRaiseTo : Int
  holeCards : List Card
  board : List Card
  actionHistory : List ActionHistoryEntry
  legalActions : List String
  timebankMs : Int
deriving Repr

/-- `ActionResponse` (`schemas.py`); `metadata` is never read by the engine
and is omitted. -/
structure ActionResponse where
  action : String
  amount : Option Int := none
  waitTimeMs : Int := 0
deriving DecidableEq, Repr

/-- The raw value an agent implementation returns from `act` before the
`AgentInterface` adapter checks `isinstance(response, ActionResponse)`. -/
inductive RawResponse
  | wellFormed (r : ActionResponse)
  | malformed
deriving DecidableEq, Repr

/-- An agent boundary: for a request it produces the raw `act` return value
together with the wall-clock milliseconds the call took
(`(time.perf_counter() - start) * 1000`). -/
abbrev Agent : Type := ActionRequest → RawResponse × Int

/-- The structured events the engine pushes to the log sink, with the
payload fields the claims refer to. -/
inductive LogEvent
  | handStart
  | dealHole (seat : Nat)
  | blind (seat : Nat) (amount : Int) (blindType : String)
  | antePosted (seat : Nat) (amount : Int)
  | streetTransition (street : String)
  | penalty (seat : Nat) (kind : String) (fallback : String)
  | actionTaken (seat : Nat) (action : String) (amount : Option Int)
  | showdownEvt
  | handEnd
deriving DecidableEq, Repr

/-! ## Seat-map helpers -/

/-- Look up the seat's record in the player map. -/
def getPlayer (players : List Player) (seat : Nat) : Option Player :=
  players.find? (fun p => p.seatId = seat)

/-- Write back a mutated player record. -/
def setPlayer (players : List Player) (p : Player) : List Player :=
  players.map (fun q => if q.seatId = p.seatId then p else q)

/-- `d.get(seat, 0)` on a seat-keyed integer dict. -/
def lookupSeat (assoc : List (Nat × Int)) (seat : Nat) : Int :=
  match assoc.find? (fun e => e.1 = seat) with
  | some e => e.2
  | none => 0

/-- `d[seat] += amount` on a seat-keyed integer dict. -/
def bumpSeat (assoc : List (Nat × Int)) (seat : Nat) (amount : Int) :
    List (Nat × Int) :=
  assoc.map (fun e => if e.1 = seat then (e.1, e.2 + amount) else e)

/-- `seat_after`. -/
def seatAfter (seat seatCount : Nat) : Nat := (seat + 1) % seatCount

/-- The `order` loop of `compute_order` / `_odd_chip_distribution_order`:
`k` seats starting at `first`, each followed by `seat_after`. -/
def rotationList (k : Nat) (first seatCount : Nat) : List Nat :=
  match k with
  | 0 => []
  | k + 1 => first :: rotationList k (seatAfter first seatCount) seatCount

/-- `compute_order`. -/
def computeOrder (street : String) (seatCount buttonSeat : Nat) : List Nat :=
  let smallBlindSeat := seatAfter buttonSeat seatCount
  let bigBlindSeat := seatAfter smallBlindSeat seatCount
  let first :=
    if street = "preflop" then
      if seatCount = 2 then buttonSeat else seatAfter bigBlindSeat seatCount
    else seatAfter buttonSeat seatCount
  rotationList seatCount first seatCount

/-! ## Engine helper predicates -/

/-- `_players_remaining`. -/
def playersRemaining (players : List Player) : List Nat :=
  (players.filter (fun p => !p.folded)).map Player.seatId

/-- `_remaining_seat`.  Its only call sites in `play_hand` are the two
unreachable `_players_remaining(players) == 1` branches (a list compared to an
integer), so it is never invoked; kept here to mirror the source. -/
def remainingSeat (players : List Player) : Except EngineError Nat :=
  match players.find? (fun p => !p.folded) with
  | some p => .ok p.seatId
  | none => .error .illegalAction

/-- `_all_non_folded_all_in`. -/
def allNonFoldedAllIn (players : List Player) : Bool :=
  let active := players.filter (fun p => !p.folded)
  !active.isEmpty && active.all Player.allIn

/-- `_active_order`. -/
def activeOrderOf (order : List Nat) (players : List Player) : List Nat :=
  order.filter (fun seat =>
    match getPlayer players seat with
    | some p => !p.folded && !p.allIn && !p.sittingOut
    | none => false)

/-- `_rotation_after`. -/
def rotationAfter (order : List Nat) (seat : Nat) : List Nat :=
  if seat ∈ order then
    let idx := order.indexOf seat
    order.drop (idx + 1) ++ order.take idx
  else order

/-- `_betting_round_complete`. -/
def bettingRoundComplete (currentBet : Int) (players : List Player) : Bool :=
  let contenders := players.filter (fun p => !p.folded && !p.allIn)
  if contenders.length ≤ 1 then true
  else contenders.all (fun p => p.bet == currentBet)

/-- `_min_raise_target`. -/
def minRaiseTarget (cfg : EngineConfig) (currentBet lastFullRaise : Int) : Int :=
  if currentBet == 0 then max cfg.bigBlind 1
  else currentBet + max lastFullRaise cfg.bigBlind

/-- `_legal_actions` (the `min_raise_to` parameter of the source is unused
by the function body and is not repeated here). -/
def legalActions (player : Player) (toCall : Int) (mayRaise : Bool) :
    List String :=
  let legal := ["fold"]
  let legal :=
    if toCall == 0 then legal ++ ["check"]
    else if player.stack > 0 then legal ++ ["call"]
    else legal
  let maxTotal := player.bet + player.stack
  if mayRaise && player.stack > 0 && maxTotal > player.bet + toCall then
    legal ++ ["raise_to"]
  else legal

/-- `_timeout_fallback` (`legal_actions` always contains `"fold"` at the
call sites, so the final `legal_actions[0]` index is modelled with a
default). -/
def timeoutFallback (cfg : EngineConfig) (toCall : Int) (legal : List String) :
    ActionResponse :=
  if cfg.timeoutFallbackPolicy == .fold && "fold" ∈ legal then ⟨"fold", none, 0⟩
  else if toCall == 0 && "check" ∈ legal then ⟨"check", none, 0⟩
  else if "fold" ∈ legal then ⟨"fold", none, 0⟩
  else if "call" ∈ legal then ⟨"call", none, 0⟩
  else ⟨legal.headD "fold", none, 0⟩

/-- `_illegal_fallback`. -/
def illegalFallback (cfg : EngineConfig) (toCall : Int) (legal : List String) :
    ActionResponse :=
  if cfg.illegalActionFallbackPolicy == .fold && "fold" ∈ legal then ⟨"fold", none, 0⟩
  else if toCall == 0 && "check" ∈ legal then ⟨"check", none, 0⟩
  else if "fold" ∈ legal then ⟨"fold", none, 0⟩
  else if "call" ∈ legal then ⟨"call", none, 0⟩
  else ⟨legal.headD "fold", none, 0⟩

/-! ## Chip-moving operations -/

/-- `_post_blind`: posts `min(amount, stack)`, or just marks the seat
all-in when nothing can be posted. -/
def postBlind (player : Player) (amount : Int) (contribs : List (Nat × Int))
    (blindType : String) :
    Player × List (Nat × Int) × Int × List LogEvent :=
  let posted := min amount player.stack
  if posted == 0 then
    ({ player with allIn := true }, contribs, 0, [])
  else
    let player' := { player with stack := player.stack - posted, bet := player.bet + posted }
    let contribs := bumpSeat contribs player.seatId posted
    let player' := if player'.stack == 0 then { player' with allIn := true } else player'
    (player', contribs, posted, [.blind player.seatId posted blindType])

/-- `_post_ante` (like a blind but does not move the street bet). -/
def postAnte (player : Player) (amount : Int) (contribs : List (Nat × Int)) :
    Player × List (Nat × Int) × Int × List LogEvent :=
  let posted := min amount player.stack
  if posted == 0 then
    ({ player with allIn := true }, contribs, 0, [])
  else
    let player' := { player with stack := player.stack - posted }
    let contribs := bumpSeat contribs player.seatId posted
    let player' := if player'.stack == 0 then { player' with allIn := true } else player'
    (player', contribs, posted, [.antePosted player.seatId posted])

/-- `_apply_fold`. -/
def applyFold (player : Player) : Player := { player with folded := true }

/-- `_apply_check`. -/
def applyCheck (toCall : Int) : Except EngineError Unit :=
  if toCall ≠ 0 then .error .illegalAction else .ok ()

/-- `_apply_call`: moves `min(to_call, stack)` from stack to bet. -/
def applyCall (player : Player) (toCall : Int) (contribs : List (Nat × Int)) :
    Player × List (Nat × Int) × Int :=
  let amount := min toCall player.stack
  let player' := { player with stack := player.stack - amount, bet := player.bet + amount }
  let contribs := bumpSeat contribs player.seatId amount
  let player' := if player'.stack == 0 then { player' with allIn := true } else player'
  (player', contribs, amount)

/-- `_apply_raise_to`: clamps the target to `bet + stack`, moves the chips,
and classifies the raise.  Returns
`(player, contributions, added, current_bet, last_full_raise, is_full_raise)`.
(The source's `to_call`/`min_raise_to` parameters are unused by its body.) -/
def applyRaiseTo (cfg : EngineConfig) (player : Player) (desired : Option Int)
    (currentBet lastFullRaise : Int) (contribs : List (Nat × Int)) :
    Except EngineError (Player × List (Nat × Int) × Int × Int × Int × Bool) := do
  match desired with
  | none => throw .illegalAction
  | some desired₀ =>
    let maxTotal := player.bet + player.stack
    let desired := if desired₀ > maxTotal then maxTotal else desired₀
    let added := desired - player.bet
    let player' := { player with stack := player.stack - added, bet := desired }
    let contribs := bumpSeat contribs player.seatId added
    let player' := if player'.stack == 0 then { player' with allIn := true } else player'
    if currentBet == 0 then
      if desired ≥ cfg.bigBlind then
        return (player', contribs, added, desired, desired, true)
      else
        return (player', contribs, added, desired, lastFullRaise, false)
    else
      if desired > currentBet && desired ≥ currentBet + lastFullRaise then
        return (player', contribs, added, max currentBet desired, desired - currentBet, true)
      else
        return (player', contribs, added, max currentBet desired, lastFullRaise, false)

/-- Restriction of the `acted` map to the current active order
(`{s: acted.get(s, False) for s in active_order}`). -/
def restrictActed (acted : Nat → Bool) (activeOrder : List Nat) : Nat → Bool :=
  fun s => acted s && decide (s ∈ activeOrder)

/-- The `acted` rebuild after a raise (`_betting_round` lines 574-578):
a full raise by a raiser who is not all-in resets every other active seat's
flag; otherwise the existing flags are kept (plus the raiser's own). -/
def actedAfterRaise (isFullRaise raiserAllIn : Bool) (seat : Nat)
    (activeOrder : List Nat) (acted : Nat → Bool) : Nat → Bool :=
  if isFullRaise && !raiserAllIn then
    fun s => decide (s = seat) && decide (s ∈ activeOrder)
  else
    fun s => (decide (s = seat) || acted s) && decide (s ∈ activeOrder)

/-! ## Agent invocation and decision normalisation -/

/-- `AgentInterface.act`: the adapter around the agent's raw return value;
a value that is not a well-formed `ActionResponse` raises `TypeError`. -/
def agentAct (raw : RawResponse) : Except EngineError ActionResponse :=
  match raw with
  | .wellFormed r => .ok r
  | .malformed => .error .typeError

/-- `_invoke_agent`: measures the call and subtracts the agent's
self-reported `wait_time_ms`. -/
def invokeAgent (agent : Agent) (request : ActionRequest) :
    Except EngineError (ActionResponse × Int) := do
  let (raw, wallMs) := agent request
  let response ← agentAct raw
  let elapsedMs := wallMs - response.waitTimeMs
  return (response, elapsedMs)

/-- `_normalize_action`: returns the (possibly substituted) response and
whether an illegal-action penalty was recorded.  (The source's
`min_raise_to` parameter is unused by its body, which recomputes the
target.) -/
def normalizeAction (cfg : EngineConfig) (player : Player)
    (response : ActionResponse) (legal : List String)
    (toCall currentBet lastFullRaise : Int) : ActionResponse × Bool :=
  if response.action ∉ legal then (illegalFallback cfg toCall legal, true)
  else if response.action ≠ "raise_to" then (response, false)
  else
    match response.amount with
    | none => (illegalFallback cfg toCall legal, true)
    | some desired =>
      let callTotal := player.bet + toCall
      let maxTotal := player.bet + player.stack
      if maxTotal ≤ callTotal || desired ≤ callTotal then
        (illegalFallback cfg toCall legal, true)
      else
        let target := minRaiseTarget cfg currentBet lastFullRaise
        if maxTotal ≥ target && desired < target then
          (illegalFallback cfg toCall legal, true)
        else if maxTotal < target && desired ≠ maxTotal then
          (illegalFallback cfg toCall legal, true)
        else (⟨"raise_to", some (min desired maxTotal), 0⟩, false)

/-- Outcome of one agent decision after timeout and legality screening
(`_betting_round` lines 508-541): the action to apply, the player with its
penalty counters updated, the clamped elapsed time, and the penalty events
logged. -/
structure DecisionOutcome where
  response : ActionResponse
  player : Player
  elapsedMs : Int
  events : List LogEvent
deriving Repr

/-- One agent decision: invoke the agent, apply the retrospective timeout
check (substituting `_timeout_fallback` and counting a timeout), then apply
`_normalize_action` (substituting `_illegal_fallback` and counting an
illegal action). -/
def obtainDecision (cfg : EngineConfig) (agent : Agent) (request : ActionRequest)
    (seat : Nat) (player : Player) (legal : List String)
    (toCall currentBet lastFullRaise : Int) :
    Except EngineError DecisionOutcome := do
  let (response₀, elapsed₀) ← invokeAgent agent request
  let (response₁, player₁, elapsed₁, events₁) :=
    if elapsed₀ > cfg.timePerDecisionMs then
      let fallback := timeoutFallback cfg toCall legal
      (fallback, { player with timeouts := player.timeouts + 1 },
        cfg.timePerDecisionMs,
        [LogEvent.penalty seat "timeout" fallback.action])
    else (response₀, player, elapsed₀, ([] : List LogEvent))
  let (response₂, isPenalty) :=
    normalizeAction cfg player₁ response₁ legal toCall currentBet lastFullRaise
  let (player₂, events₂) :=
    if isPenalty then
      ({ player₁ with illegalActions := player₁.illegalActions + 1 },
        events₁ ++ [LogEvent.penalty seat "illegal_action" response₂.action])
    else (player₁, events₁)
  return ⟨response₂, player₂, elapsed₁, events₂⟩

/-! ## The betting round (`_betting_round`) -/

/-- Per-round immutable context: street, button, the full seating order for
the street, and the current board. -/
structure RoundCtx where
  street : String
  buttonSeat : Nat
  order : List Nat
  board : List Card

/-- The mutable state threaded through the betting `while` loop. -/
structure RoundState where
  players : List Player
  contribs : List (Nat × Int)
  currentBet : Int
  lastFullRaise : Int
  pot : Int
  actionHistory : List ActionHistoryEntry
  log : List LogEvent
  acted : Nat → Bool
  queue : List Nat
  lastAggressor : Option Nat
  aggressionOccurred : Bool

/-- `players[s].bet` looked up through the seat map. -/
def playerBet (players : List Player) (seat : Nat) : Int :=
  match getPlayer players seat with
  | some p => p.bet
  | none => 0

/-- Falling off the bottom of the `while` loop (lines 629-630): build the
round result with `everyone_all_in` recomputed. -/
def roundFinish (st : RoundState) : BettingRoundResult × RoundState :=
  (⟨st.lastAggressor, st.aggressionOccurred, allNonFoldedAllIn st.players⟩, st)

/-- The queue-refill block that appears twice in `_betting_round`
(lines 471-482 and 617-627): re-queue the seats that still owe a call or
have not acted; `none` means the round breaks (betting complete). -/
def requeue (ctx : RoundCtx) (st : RoundState) : Option RoundState :=
  let activeOrder := activeOrderOf ctx.order st.players
  let remaining := activeOrder.filter (fun s =>
    st.currentBet - playerBet st.players s > 0 || !st.acted s)
  if !remaining.isEmpty then some { st with queue := remaining }
  else if bettingRoundComplete st.currentBet st.players then none
  else some { st with queue := activeOrder }

/-- One agent decision applied to the round state (`_betting_round` lines
485-609): build the request, obtain the screened decision, apply the
action, and append the history entry and action event. -/
def seatDecision (cfg : EngineConfig) (agents : Nat → Agent) (ctx : RoundCtx)
    (seat : Nat) (player : Player) (st : RoundState) :
    Except EngineError RoundState := do
  let toCall := st.currentBet - player.bet
  let minRaiseTo := minRaiseTarget cfg st.currentBet st.lastFullRaise
  let allowRaise := !st.acted seat
  let legal := legalActions player toCall allowRaise
  let request : ActionRequest :=
    { seatCount := cfg.seatCount
      seatId := seat
      buttonSeat := ctx.buttonSeat
      stackMap := st.players.map (fun p => (p.seatId, p.stack))
      pot := st.pot
      toCall := toCall
      minRaiseTo := minRaiseTo
      holeCards := player.holeCards
      board := ctx.board
      actionHistory := st.actionHistory
      legalActions := legal
      timebankMs := cfg.timePerDecisionMs }
  let outcome ← obtainDecision cfg (agents seat) request seat player
    legal toCall st.currentBet st.lastFullRaise
  let response := outcome.response
  let player := outcome.player
  let st := { st with
    players := setPlayer st.players player
    log := st.log ++ outcome.events }
  let st' ←
    if response.action == "fold" then do
      let players' := setPlayer st.players (applyFold player)
      let activeOrder := activeOrderOf ctx.order players'
      pure { st with
        players := players'
        acted := restrictActed st.acted activeOrder
        queue := activeOrder }
    else if response.action == "check" then do
      let _ ← applyCheck toCall
      pure { st with
        acted := fun s => if s = seat then true else st.acted s }
    else if response.action == "call" then do
      let (player', contribs', added) := applyCall player toCall st.contribs
      pure { st with
        players := setPlayer st.players player'
        contribs := contribs'
        pot := st.pot + added
        acted := fun s => if s = seat then true else st.acted s }
    else if response.action == "raise_to" then do
      let (player', contribs', added, currentBet', lastFullRaise', isFull) ←
        applyRaiseTo cfg player response.amount st.currentBet
          st.lastFullRaise st.contribs
      let players' := setPlayer st.players player'
      let activeOrder := activeOrderOf ctx.order players'
      pure { st with
        players := players'
        contribs := contribs'
        currentBet := currentBet'
        lastFullRaise := lastFullRaise'
        pot := st.pot + added
        acted := actedAfterRaise isFull player'.allIn seat activeOrder st.acted
        queue := rotationAfter activeOrder seat
        lastAggressor := some seat
        aggressionOccurred := true }
    else throw .illegalAction
  let entry : ActionHistoryEntry :=
    ⟨seat, response.action, response.amount, ctx.street, toCall, minRaiseTo⟩
  return { st' with
    actionHistory := st'.actionHistory ++ [entry]
    log := st'.log ++ [.actionTaken seat response.action response.amount] }

/-- Whether the betting `while` loop ends this iteration or goes around
again. -/
inductive StepOutcome where
  | finished (res : BettingRoundResult × RoundState)
  | next (st : RoundState)

/-- The checks at the bottom of the loop body (lines 611-627): exit
immediately when all non-folded seats are all-in, break when betting is
complete and the queue is drained, otherwise refill the queue as needed. -/
def postActionOutcome (ctx : RoundCtx) (st' : RoundState) : StepOutcome :=
  if allNonFoldedAllIn st'.players then
    .finished (⟨st'.lastAggressor, st'.aggressionOccurred, true⟩, st')
  else if bettingRoundComplete st'.currentBet st'.players && st'.queue.isEmpty then
    .finished (roundFinish st')
  else if st'.queue.isEmpty then
    match requeue ctx st' with
    | some st'' => .next st''
    | none => .finished (roundFinish st')
  else .next st'

/-- One iteration of the `while queue:` loop of `_betting_round`. -/
def bettingStep (cfg : EngineConfig) (agents : Nat → Agent) (ctx : RoundCtx)
    (st : RoundState) : Except EngineError StepOutcome :=
  match st.queue with
  | [] => pure (.finished (roundFinish st))
  | seat :: rest => do
    let st := { st with queue := rest }
    match getPlayer st.players seat with
    | none => throw .illegalAction
    | some player =>
      if player.folded || player.allIn then
        let activeOrder := activeOrderOf ctx.order st.players
        pure (.next { st with acted := restrictActed st.acted activeOrder })
      else
        let toCall := st.currentBet - player.bet
        let needAction := toCall > 0 || !st.acted seat
        if !needAction then
          if rest.isEmpty then
            match requeue ctx st with
            | some st' => pure (.next st')
            | none => pure (.finished (roundFinish st))
          else pure (.next st)
        else do
          let st' ← seatDecision cfg agents ctx seat player st
          pure (postActionOutcome ctx st')

/-- The `while queue:` loop of `_betting_round`, on explicit fuel. -/
def bettingLoop (cfg : EngineConfig) (agents : Nat → Agent) (ctx : RoundCtx) :
    Nat → RoundState → Except EngineError (BettingRoundResult × RoundState)
  | 0, _ => throw .outOfFuel
  | fuel + 1, st => do
    match ← bettingStep cfg agents ctx st with
    | .finished res => pure res
    | .next st' => bettingLoop cfg agents ctx fuel st'

/-- `_betting_round` entry (lines 446-458): early exits for an all-all-in
table or an empty active order, otherwise run the loop. -/
def bettingRound (cfg : EngineConfig) (agents : Nat → Agent) (street : String)
    (buttonSeat : Nat) (fuel : Nat) (players : List Player)
    (contribs : List (Nat × Int)) (board : List Card)
    (actionHistory : List ActionHistoryEntry) (log : List LogEvent)
    (currentBet lastFullRaise pot : Int) :
    Except EngineError (BettingRoundResult × RoundState) :=
  let st₀ : RoundState :=
    { players := players
      contribs := contribs
      currentBet := currentBet
      lastFullRaise := lastFullRaise
      pot := pot
      actionHistory := actionHistory
      log := log
      acted := fun _ => false
      queue := []
      lastAggressor := none
      aggressionOccurred := false }
  if allNonFoldedAllIn players then pure (⟨none, false, true⟩, st₀)
  else
    let order := computeOrder street cfg.seatCount buttonSeat
    let activeOrder := activeOrderOf order players
    if activeOrder.isEmpty then
      pure (⟨none, false, allNonFoldedAllIn players⟩, st₀)
    else
      bettingLoop cfg agents ⟨street, buttonSeat, order, board⟩ fuel
        { st₀ with queue := activeOrder }

/-! ## Dealing -/

/-- `next(deck_iter)`. -/
def drawCard : List Card → Except EngineError (Card × List Card)
  | [] => .error .stopIteration
  | c :: rest => .ok (c, rest)

/-- `_deal_hole_cards`: two passes over the seats left of the button, one
card each, then a `deal_hole` event per seat. -/
def dealHoleCards (cfg : EngineConfig) (buttonSeat : Nat)
    (players₀ : List Player) (deck₀ : List Card) (log₀ : List LogEvent) :
    Except EngineError (List Player × List Card × List LogEvent) := do
  let mut players := players₀
  let mut deck := deck₀
  for _round in [0, 1] do
    for offset in List.range cfg.seatCount do
      let seat := (buttonSeat + 1 + offset) % cfg.seatCount
      match getPlayer players seat with
      | none => pure ()
      | some p =>
        if p.sittingOut then pure ()
        else
          let (card, rest) ← drawCard deck
          deck := rest
          players := setPlayer players { p with holeCards := p.holeCards ++ [card] }
  let mut log := log₀
  for p in players do
    if !p.sittingOut then log := log ++ [.dealHole p.seatId]
  return (players, deck, log)

/-- `_deal_board`: burn one card, then three for the flop or one otherwise. -/
def dealBoard (street : String) (board : List Card) (deck : List Card)
    (log : List LogEvent) :
    Except EngineError (List Card × List Card × List LogEvent) := do
  let (_burn, deck) ← drawCard deck
  if street == "flop" then
    let (c1, deck) ← drawCard deck
    let (c2, deck) ← drawCard deck
    let (c3, deck) ← drawCard deck
    return (board ++ [c1, c2, c3], deck, log ++ [.streetTransition street])
  else
    let (c1, deck) ← drawCard deck
    return (board ++ [c1], deck, log ++ [.streetTransition street])

/-- `_run_out_board`: complete the board to five cards (the `while` loop on
explicit fuel; board lengths other than 0/3/4 would spin forever in the
source and exhaust the fuel here). -/
def runOutBoard : Nat → List Card → List Card → List LogEvent →
    Except EngineError (List Card × List Card × List LogEvent)
  | 0, _, _, _ => .error .outOfFuel
  | fuel + 1, board, deck, log =>
    if board.length < 5 then
      if board.length == 0 then do
        let (b, d, l) ← dealBoard "flop" board deck log
        runOutBoard fuel b d l
      else if board.length == 3 then do
        let (b, d, l) ← dealBoard "turn" board deck log
        runOutBoard fuel b d l
      else if board.length == 4 then do
        let (b, d, l) ← dealBoard "river" board deck log
        runOutBoard fuel b d l
      else runOutBoard fuel board deck log
    else .ok (board, deck, log)

/-! ## Side pots and showdown (`_build_side_pots`, `_resolve_showdown`) -/

/-- Insert into an ascending-sorted list (`sorted(...)`). -/
def insertAscInt (x : Int) : List Int → List Int
  | [] => [x]
  | y :: ys => if x ≤ y then x :: y :: ys else y :: insertAscInt x ys

/-- Ascending sort of the distinct positive contribution levels. -/
def sortAscInt (l : List Int) : List Int := l.foldr insertAscInt []

/-- The level loop of `_build_side_pots`. -/
def buildPotsAux (players : List Player) (contribs : List (Nat × Int)) :
    List Int → Int → List Pot
  | [], _ => []
  | amount :: restLevels, previous =>
    let contributors := (contribs.filter (fun e => e.2 ≥ amount)).map Prod.fst
    let size := (amount - previous) * (contributors.length : Int)
    let eligible := contributors.filter (fun seat =>
      match getPlayer players seat with
      | some p => !p.folded
      | none => true)
    ⟨size, eligible⟩ :: buildPotsAux players contribs restLevels amount

/-- `_build_side_pots`: one pot per distinct positive contribution level. -/
def buildSidePots (players : List Player) (contribs : List (Nat × Int)) :
    List Pot :=
  let levels := sortAscInt (dedupInt ((contribs.map Prod.snd).filter (fun a => a > 0)))
  buildPotsAux players contribs levels 0

/-- `_odd_chip_distribution_order`: seating order starting left of the
button (only `button_left` is implemented). -/
def oddChipDistributionOrder (cfg : EngineConfig) (buttonSeat : Nat) :
    Except EngineError (List Nat) :=
  match cfg.oddChipsRule with
  | .buttonLeft =>
    .ok (rotationList cfg.seatCount (seatAfter buttonSeat cfg.seatCount) cfg.seatCount)
  | .unsupported => .error .notImplemented

/-- The odd-chip remainder loop of `_resolve_showdown`: one chip at a time
to winners in `odd_chip_order`, stopping when the remainder is exhausted. -/
def distributeOdd (winners : List Nat) :
    List Nat → Int → List (Nat × Int) → List (Nat × Int)
  | [], _, payouts => payouts
  | seat :: rest, remainder, payouts =>
    if seat ∈ winners then
      let payouts := bumpSeat payouts seat 1
      if remainder - 1 == 0 then payouts
      else distributeOdd winners rest (remainder - 1) payouts
    else distributeOdd winners rest remainder payouts

/-- The `for pot in pots` loop of `_resolve_showdown`: each pot with a
non-empty eligible list goes to its best-ranked eligible seat(s) —
`divmod` split, remainder distributed one chip at a time in
`odd_chip_order`; a pot with no eligible seats is skipped (`continue`). -/
def awardPots (handRanks : Nat → Nat × List Nat) (oddChipOrder : List Nat) :
    List Pot → List (Nat × Int) → List (Nat × Int)
  | [], payouts => payouts
  | pot :: rest, payouts =>
    match pot.eligibleSeats with
    | [] => awardPots handRanks oddChipOrder rest payouts
    | e :: es =>
      let bestRank := es.foldl
        (fun acc s => if rankCmp (handRanks s) acc == .gt then handRanks s else acc)
        (handRanks e)
      let winners := (e :: es).filter (fun s => handRanks s == bestRank)
      let share := pot.size.ediv (winners.length : Int)
      let remainder := pot.size.emod (winners.length : Int)
      let payouts := winners.foldl (fun acc seat => bumpSeat acc seat share) payouts
      let payouts :=
        if remainder ≠ 0 then distributeOdd winners oddChipOrder remainder payouts
        else payouts
      awardPots handRanks oddChipOrder rest payouts

/-- `_resolve_showdown`: build the side pots, rank the non-folded hands
over hole cards + board, and award each pot. -/
def resolveShowdown (cfg : EngineConfig) (players : List Player)
    (board : List Card) (contribs : List (Nat × Int)) (buttonSeat : Nat) :
    Except EngineError (List (Nat × Int)) := do
  let pots := buildSidePots players contribs
  let activeSeats := playersRemaining players
  let handRanksList := activeSeats.map (fun seat =>
    (seat, match getPlayer players seat with
      | some p => bestHandRank (p.holeCards ++ board)
      | none => ((0 : Nat), ([] : List Nat))))
  let handRanks : Nat → Nat × List Nat := fun seat =>
    match handRanksList.find? (fun e => e.1 = seat) with
    | some e => e.2
    | none => (0, [])
  let oddChipOrder ← oddChipDistributionOrder cfg buttonSeat
  return awardPots handRanks oddChipOrder pots (players.map (fun p => (p.seatId, 0)))

/-! ## Payouts and the hand orchestrator -/

/-- The value of `play_hand`: the per-seat deltas it returns, together with
the final seat states (the Python engine mutates them in place) and the
event log emitted to the sink. -/
structure HandResult where
  deltas : List (Nat × Int)
  players : List Player
  log : List LogEvent
deriving DecidableEq, Repr

/-- `_apply_payouts`: credit winnings to stacks and return
`delta = payout - contribution` per seat. -/
def applyPayouts (players : List Player) (contribs payouts : List (Nat × Int))
    (log : List LogEvent) : HandResult :=
  let deltas := players.map (fun p =>
    (p.seatId, lookupSeat payouts p.seatId - lookupSeat contribs p.seatId))
  let players' := players.map (fun p =>
    { p with stack := p.stack + lookupSeat payouts p.seatId })
  ⟨deltas, players', log ++ [.handEnd]⟩

/-- `_blind_seats`. -/
def blindSeats (cfg : EngineConfig) (buttonSeat : Nat) : Nat × Nat :=
  if cfg.seatCount == 2 then
    (buttonSeat, seatAfter buttonSeat cfg.seatCount)
  else
    let sb := seatAfter buttonSeat cfg.seatCount
    (sb, seatAfter sb cfg.seatCount)

/-- `max((p.bet for p in players.values()), default=0)`. -/
def maxBet (players : List Player) : Int :=
  match players with
  | [] => 0
  | p :: ps => ps.foldl (fun m q => max m q.bet) p.bet

/-- `sum(contributions.values())`. -/
def contribsSum (contribs : List (Nat × Int)) : Int :=
  (contribs.map Prod.snd).sum

/-- `players.map (bet := 0)` (`_reset_bets`). -/
def resetBets (players : List Player) : List Player :=
  players.map (fun p => { p with bet := 0 })

/-- Body of `HoldemEngine.play_hand` after its opening straddle guard.
`fuel` bounds the betting `while` loops (the Python loops have no such
bound; a completed hand is one where the fuel was not exhausted).  Deck,
button and seat map are the caller-provided inputs; agents are keyed by
seat. -/
def playHandBody (cfg : EngineConfig) (buttonSeat : Nat) (players₀ : List Player)
    (agents : Nat → Agent) (deck₀ : List Card) (fuel : Nat) :
    Except EngineError HandResult := do
  let mut players := players₀.map (fun p =>
    p.resetForHand (if cfg.autoTopUp then cfg.startingStack else p.stack))
  let mut log : List LogEvent := [.handStart]
  let mut contribs : List (Nat × Int) := players.map (fun p => (p.seatId, 0))
  let mut pot : Int := 0
  let mut board : List Card := []
  let mut actionHistory : List ActionHistoryEntry := []
  let (players₁, deck₁, log₁) ← dealHoleCards cfg buttonSeat players deck₀ log
  players := players₁
  log := log₁
  let mut deck := deck₁
  if cfg.ante > 0 then
    for offset in List.range cfg.seatCount do
      let seat := (buttonSeat + offset) % cfg.seatCount
      match getPlayer players seat with
      | none => pure ()
      | some p =>
        if p.sittingOut then pure ()
        else
          let (p', contribs', posted, ev) := postAnte p cfg.ante contribs
          players := setPlayer players p'
          contribs := contribs'
          pot := pot + posted
          log := log ++ ev
  let (sbSeat, bbSeat) := blindSeats cfg buttonSeat
  match getPlayer players sbSeat with
  | none => pure ()
  | some p =>
    if !p.sittingOut then
      let (p', contribs', posted, ev) := postBlind p cfg.smallBlind contribs "small"
      players := setPlayer players p'
      contribs := contribs'
      pot := pot + posted
      log := log ++ ev
  match getPlayer players bbSeat with
  | none => pure ()
  | some p =>
    if !p.sittingOut then
      let (p', contribs', posted, ev) := postBlind p cfg.bigBlind contribs "big"
      players := setPlayer players p'
      contribs := contribs'
      pot := pot + posted
      log := log ++ ev
  let mut currentBet := maxBet players
  let mut lastFullRaise := cfg.bigBlind
  let (roundResult₀, rs₀) ← bettingRound cfg agents "preflop" buttonSeat fuel
    players contribs board actionHistory log currentBet lastFullRaise pot
  players := rs₀.players
  contribs := rs₀.contribs
  currentBet := rs₀.currentBet
  lastFullRaise := rs₀.lastFullRaise
  pot := rs₀.pot
  actionHistory := rs₀.actionHistory
  log := rs₀.log
  -- Source line 259 reads `if self._players_remaining(players) == 1:`, which
  -- compares the *list* of remaining seats against the integer 1; in Python
  -- that comparison is always False, so the early fold-out exit there (and the
  -- identical one at line 290 inside the street loop) is unreachable dead code
  -- and is not modelled.  The only live fold-out exit is the
  -- `len(survivors) == 1` check after the street loop (line 304).
  let mut autoRunout := roundResult₀.everyoneAllIn && cfg.runoutWhenAllIn
  for street in ["flop", "turn", "river"] do
    if autoRunout then break
    let (board', deck', log') ← dealBoard street board deck log
    board := board'
    deck := deck'
    log := log'
    players := resetBets players
    currentBet := 0
    lastFullRaise := 0
    let (rr, rs) ← bettingRound cfg agents street buttonSeat fuel
      players contribs board actionHistory log currentBet lastFullRaise pot
    players := rs.players
    contribs := rs.contribs
    currentBet := rs.currentBet
    lastFullRaise := rs.lastFullRaise
    pot := rs.pot
    actionHistory := rs.actionHistory
    log := rs.log
    if rr.everyoneAllIn && cfg.runoutWhenAllIn then
      autoRunout := true
      break
  if autoRunout then
    let (board', deck', log') ← runOutBoard 6 board deck log
    board := board'
    deck := deck'
    log := log'
  let survivors := playersRemaining players
  if survivors.length == 1 then
    let winner := survivors.headD 0
    let payouts := [(winner, contribsSum contribs)]
    return applyPayouts players contribs payouts (log ++ [.showdownEvt])
  let payouts ← resolveShowdown cfg players board contribs buttonSeat
  return applyPayouts players contribs payouts (log ++ [.showdownEvt])

/-- `HoldemEngine.play_hand`: raises `NotImplementedError` when the
unimplemented straddle configuration is enabled, otherwise plays the hand. -/
def playHand (cfg : EngineConfig) (buttonSeat : Nat) (players₀ : List Player)
    (agents : Nat → Agent) (deck₀ : List Card) (fuel : Nat) :
    Except EngineError HandResult :=
  if cfg.straddle then .error .notImplemented
  else playHandBody cfg buttonSeat players₀ agents deck₀ fuel

/-! ## Concrete instances used by witnesses and counterexamples -/

/-- The `new_deck()` order: each rank 2..14 with suits `s,h,d,c`. -/
def fullDeck : List Card :=
  (List.range 13).flatMap (fun r => (List.range 4).map (fun s => ⟨r + 2, s⟩))

/-- A scripted agent that always plays the same well-formed action
instantly. -/
def constAgent (a : String) (amt : Option Int) : Agent :=
  fun _ => (.wellFormed ⟨a, amt, 0⟩, 0)

/-- A fresh seat record with the given id and stack. -/
def freshPlayer (seat : Nat) (stack : Int) : Player :=
  { seatId := seat, stack := stack }

/-- 6-max table, blinds 5/10, no top-up (stacks carried in as given). -/
def cfg6 : EngineConfig :=
  { seatCount := 6, smallBlind := 5, bigBlind := 10, startingStack := 1000
    autoTopUp := false }

/-- Six seats: three deep stacks, seat 3 with 8 chips, seat 4 with 5 chips. -/
def players6 : List Player :=
  [freshPlayer 0 1000, freshPlayer 1 1000, freshPlayer 2 1000,
   freshPlayer 3 8, freshPlayer 4 5, freshPlayer 5 1000]

/-- Seats 3 and 4 call their short stacks in; every other seat folds when
asked (including the big blind, for whom folding is a legal action even
with nothing to call). -/
def agents6 : Nat → Agent := fun seat =>
  if seat == 3 || seat == 4 then constAgent "call" none else constAgent "fold" none

/-! ## Claim theorems -/

/-- **C9.**  `reset_for_hand` resets the per-hand fields — stack (to the
given value), bet, folded, all_in, hole_cards, sitting_out — and leaves the
two session-scoped counters `timeouts` and `illegal_actions` (and the seat
id) unchanged, so the counters persist across successive hands
(`play_hand` resets every seat through this method at hand start). -/
theorem reset_for_hand_preserves_session_counters (p : Player) (s : Int) :
    (p.resetForHand s).timeouts = p.timeouts ∧
    (p.resetForHand s).illegalActions = p.illegalActions ∧
    (p.resetForHand s).seatId = p.seatId ∧
    (p.resetForHand s).stack = s ∧
    (p.resetForHand s).bet = 0 ∧
    (p.resetForHand s).folded = false ∧
    (p.resetForHand s).allIn = false ∧
    (p.resetForHand s).holeCards = [] ∧
    (p.resetForHand s).sittingOut = false := by
  simp [Player.resetForHand]

/-- **C8.**  Integration faults are hard errors, not fallback-recovered:
an agent `act` return value that is not a well-formed `ActionResponse`
makes the agent adapter raise `TypeError`, and `play_hand` invoked with the
unimplemented straddle configuration raises `NotImplementedError` before
playing anything. -/
theorem integration_faults_are_hard_errors :
    agentAct .malformed = .error .typeError ∧
    (∀ (r : ActionResponse), agentAct (.wellFormed r) = .ok r) ∧
    (∀ (cfg : EngineConfig) (buttonSeat : Nat) (players : List Player)
        (agents : Nat → Agent) (deck : List Card) (fuel : Nat),
      cfg.straddle = true →
      playHand cfg buttonSeat players agents deck fuel = .error .notImplemented) := by
  refine ⟨rfl, fun r => rfl, ?_⟩
  intro cfg b ps ags dk f h
  simp [playHand, h]

/-- Witness for C8 at a concrete straddle-enabled table and a concrete
malformed agent. -/
theorem integration_faults_are_hard_errors_witness :
    playHand { cfg6 with straddle := true } 0 players6
      (fun _ => fun _ => (.malformed, 0)) fullDeck 60 = .error .notImplemented :=
  integration_faults_are_hard_errors.2.2 _ _ _ _ _ _ rfl

/-- **C3.**  Legality closure of `_legal_actions`: `fold` is always legal;
`check` is legal iff `to_call == 0`; `call` iff `to_call > 0` and the stack
is positive; `raise_to` iff the seat may still raise (`may_raise` is
`not acted[seat]`, i.e. the seat has not acted since the last full raise
this street), the stack is positive, and the seat's maximum possible total
`bet + stack` exceeds its call total `bet + to_call`.  `to_call =
current_bet - bet` is non-negative at every decision point. -/
theorem legal_actions_closure (p : Player) (toCall : Int) (mayRaise : Bool)
    (h : 0 ≤ toCall) :
    "fold" ∈ legalActions p toCall mayRaise ∧
    ("check" ∈ legalActions p toCall mayRaise ↔ toCall = 0) ∧
    ("call" ∈ legalActions p toCall mayRaise ↔ 0 < toCall ∧ 0 < p.stack) ∧
    ("raise_to" ∈ legalActions p toCall mayRaise ↔
      mayRaise = true ∧ 0 < p.stack ∧ p.bet + toCall < p.bet + p.stack) := by
  simp only [legalActions]
  split_ifs <;> simp_all <;>
    first
      | omega
      | (intro hmr
         by_cases hp : (0 : Int) < p.stack <;> simp_all)

/-- `"fold"` is always in the legal action list. -/
theorem mem_fold_legal (p : Player) (tc : Int) (mr : Bool) :
    "fold" ∈ legalActions p tc mr := by
  simp only [legalActions]
  split_ifs <;> simp

/-- With nothing to call, `"check"` is offered. -/
theorem mem_check_legal_of_zero (p : Player) (mr : Bool) :
    "check" ∈ legalActions p 0 mr := by
  simp only [legalActions]
  split_ifs <;> simp_all

/-- A request used to instantiate witnesses (the engine's behaviour under
test does not read it; scripted agents ignore it). -/
def sampleRequest : ActionRequest :=
  { seatCount := 6, seatId := 0, buttonSeat := 0, stackMap := [], pot := 0
    toCall := 10, minRaiseTo := 20, holeCards := [], board := []
    actionHistory := [], legalActions := [], timebankMs := 60000 }

/-- **C7.**  When the measured decision time minus the agent's self-reported
`wait_time_ms` exceeds the timebank, the engine increments the seat's
timeout counter, logs a `timeout` penalty event, and substitutes the
configured fallback (default policy: check if `to_call == 0`, else fold)
for the agent's returned action; the decision step completes normally
(returns `.ok`, so the hand continues and `play_hand` still returns).
The substituted fallback is itself legal, so no illegal-action penalty is
added and the seat's `illegal_actions` counter is unchanged. -/
theorem timeout_penalty_and_fallback
    (cfg : EngineConfig) (request : ActionRequest) (seat : Nat) (player : Player)
    (toCall currentBet lastFullRaise wallMs : Int) (mayRaise : Bool) (r : ActionResponse)
    (hpol : cfg.timeoutFallbackPolicy = .checkIfZeroElseFold)
    (htc : 0 ≤ toCall)
    (htime : wallMs - r.waitTimeMs > cfg.timePerDecisionMs) :
    obtainDecision cfg (fun _ => (.wellFormed r, wallMs)) request seat player
        (legalActions player toCall mayRaise) toCall currentBet lastFullRaise
      = .ok ⟨(if toCall = 0 then ⟨"check", none, 0⟩ else ⟨"fold", none, 0⟩),
             { player with timeouts := player.timeouts + 1 },
             cfg.timePerDecisionMs,
             [.penalty seat "timeout" (if toCall = 0 then "check" else "fold")]⟩ := by
  have hfold := mem_fold_legal player toCall mayRaise
  by_cases h0 : toCall = 0
  · subst h0
    have hcheck := mem_check_legal_of_zero player mayRaise
    simp [obtainDecision, invokeAgent, agentAct, htime, timeoutFallback, hpol,
      normalizeAction, hcheck, hfold]
  · simp [obtainDecision, invokeAgent, agentAct, htime, timeoutFallback, hpol,
      normalizeAction, hfold, h0]

/-- Witness for C7: a 70000 ms call against a 60000 ms timebank while
facing a bet of 10 is replaced by a fold and counted as a timeout. -/
theorem timeout_penalty_and_fallback_witness :
    obtainDecision cfg6 (fun _ => (.wellFormed ⟨"call", none, 0⟩, 70000)) sampleRequest 0
        (freshPlayer 0 100) (legalActions (freshPlayer 0 100) 10 true) 10 10 10
      = .ok ⟨⟨"fold", none, 0⟩, { freshPlayer 0 100 with timeouts := 1 },
             60000, [.penalty 0 "timeout" "fold"]⟩ := by
  simpa using timeout_penalty_and_fallback cfg6 sampleRequest 0 (freshPlayer 0 100)
    10 10 10 70000 true ⟨"call", none, 0⟩ rfl (by decide) (by decide)

/-- 3-max table, blinds 5/10, no top-up. -/
def cfg3 : EngineConfig :=
  { seatCount := 3, smallBlind := 5, bigBlind := 10, startingStack := 1000
    autoTopUp := false }

/-- 3-max scenario realising the C2 counterexample inside a full hand:
seat 2 is the big blind with a 25 stack. -/
def playersR : List Player := [freshPlayer 0 1000, freshPlayer 1 1000, freshPlayer 2 25]

/-- Seats 0 and 1 limp, seat 2 raises all-in to 25 (a full raise by size),
then seat 0 — facing the extra 15 — attempts to re-raise to 100 and
otherwise calls; seat 1 calls anything and checks when free. -/
def agentsR : Nat → Agent := fun s =>
  if s == 2 then constAgent "raise_to" (some 25)
  else if s == 0 then
    (fun req => if req.toCall == 15 then (.wellFormed ⟨"raise_to", some 100, 0⟩, 0)
      else (.wellFormed ⟨"call", none, 0⟩, 0))
  else
    (fun req => if req.toCall > 0 then (.wellFormed ⟨"call", none, 0⟩, 0)
      else (.wellFormed ⟨"check", none, 0⟩, 0))

set_option maxRecDepth 1000000 in
/-- **C2 counterexample.**  The claim says every raise reaching
`current_bet + last_full_raise_increment` clears the acted flag of every
other active seat, reopening the round.  Concretely: the big blind (seat 2,
bet 10, stack 15) raises to 25 against `current_bet = 10`,
`last_full_raise = 10`; the raise meets the full-raise threshold
`25 ≥ 10 + 10`, updates `current_bet` to 25 and `last_full_raise` to 15 —
but it leaves the raiser all-in, so the engine's acted rebuild keeps seat
0's acted flag `true` instead of clearing it.  In the corresponding full
hand (`playersR`/`agentsR`, preflop: seats 0 and 1 limp, seat 2 raises
all-in to 25), seat 0's attempted re-raise is rejected as an illegal
action — its `illegal_actions` counter ends at 1 with an
`illegal_action` penalty logged — confirming the round was not reopened. -/
theorem full_raise_allin_does_not_reopen :
    applyRaiseTo cfg3 ⟨2, 15, [], 10, false, false, 0, 0, false⟩ (some 25) 10 10
        [(0, 10), (1, 10), (2, 10)]
      = .ok (⟨2, 0, [], 25, false, true, 0, 0, false⟩,
             [(0, 10), (1, 10), (2, 25)], 15, 25, 15, true) ∧
    actedAfterRaise true true 2 [0, 1] (fun s => s == 0 || s == 1) 0 = true ∧
    (25 : Int) ≥ 10 + 10 ∧
    (playHand cfg3 0 playersR agentsR fullDeck 200).map
        (fun r => (r.players.map Player.illegalActions,
          r.log.filter (fun e => match e with | .penalty _ _ _ => true | _ => false)))
      = .ok ([1, 0, 0], [.penalty 0 "illegal_action" "fold"]) := by
  refine ⟨by rfl, by decide, by decide, by rfl⟩

/-- **C2 (amended).**  In a betting round with a live current bet, a
`raise_to` whose (stack-clamped) target reaches at least
`current_bet + last_full_raise_increment` updates `current_bet` to the
target and `last_full_raise_increment` to the increment; it clears the
"acted since last raise" flag of every other seat **only when the raiser is
not left all-in** — a full raise that puts the raiser all-in, like a short
all-in raise below the threshold, leaves the acted flags of the other
active seats unchanged (so a seat that already matched the prior bet may
call the increment but may not re-raise).  A short raise below the
threshold updates `current_bet` to the new high mark and leaves
`last_full_raise_increment` unchanged. -/
theorem raise_reopening_amended
    (cfg : EngineConfig) (player : Player) (desired currentBet lastFullRaise : Int)
    (contribs : List (Nat × Int)) (seat : Nat) (activeOrder : List Nat)
    (acted : Nat → Bool) (p' : Player) (c' : List (Nat × Int))
    (added cb' lfr' : Int) (full : Bool)
    (hcb : 0 < currentBet)
    (hclamp : desired ≤ player.bet + player.stack)
    (hrun : applyRaiseTo cfg player (some desired) currentBet lastFullRaise contribs
      = .ok (p', c', added, cb', lfr', full)) :
    (currentBet < desired ∧ currentBet + lastFullRaise ≤ desired →
      full = true ∧ cb' = desired ∧ lfr' = desired - currentBet ∧
      (p'.allIn = false →
        ∀ s, s ≠ seat → actedAfterRaise full p'.allIn seat activeOrder acted s = false) ∧
      (p'.allIn = true →
        ∀ s ∈ activeOrder, s ≠ seat →
          actedAfterRaise full p'.allIn seat activeOrder acted s = acted s)) ∧
    (desired < currentBet + lastFullRaise →
      full = false ∧ cb' = max currentBet desired ∧ lfr' = lastFullRaise ∧
      ∀ s ∈ activeOrder, s ≠ seat →
        actedAfterRaise full p'.allIn seat activeOrder acted s = acted s) := by
  have hnotgt : ¬(desired > player.bet + player.stack) := not_lt.mpr hclamp
  have hne : (currentBet == 0) = false := by simp; omega
  simp only [applyRaiseTo, hnotgt, if_false, hne, Bool.false_eq_true, ite_false,
    pure, Except.pure] at hrun
  constructor
  · rintro ⟨h1, h2⟩
    have hcond : (decide (desired > currentBet) && decide (desired ≥ currentBet + lastFullRaise)) = true := by
      simp [h1, h2]
    rw [hcond] at hrun
    simp only [if_true] at hrun
    simp only [Except.ok.injEq, Prod.mk.injEq] at hrun
    obtain ⟨hp, hc, ha, hcb', hlfr', hfull⟩ := hrun
    subst hfull hcb' hlfr'
    refine ⟨rfl, ?_, rfl, ?_, ?_⟩
    · exact max_eq_right h1.le
    · intro hallin s hs
      simp [actedAfterRaise, hallin, hs]
    · intro hallin s hmem hs
      simp [actedAfterRaise, hallin, hs, hmem]
  · intro h2
    have hcond : (decide (desired > currentBet) && decide (desired ≥ currentBet + lastFullRaise)) = false := by
      simp; omega
    rw [hcond] at hrun
    simp only [Bool.false_eq_true, if_false] at hrun
    simp only [Except.ok.injEq, Prod.mk.injEq] at hrun
    obtain ⟨hp, hc, ha, hcb', hlfr', hfull⟩ := hrun
    subst hfull hcb' hlfr'
    refine ⟨rfl, rfl, rfl, ?_⟩
    intro s hmem hs
    simp [actedAfterRaise, hs, hmem]

/-- Witness for the amended C2: a full raise to 40 over `current_bet = 20`
by a raiser left with chips does clear another active seat's acted flag. -/
theorem raise_reopening_amended_witness :
    actedAfterRaise true false 0 [1] (fun _ => true) 1 = false := by
  have h := raise_reopening_amended cfg3 ⟨0, 90, [], 10, false, false, 0, 0, false⟩
    40 20 10 [(0, 10)] 0 [1] (fun _ => true)
    ⟨0, 60, [], 40, false, false, 0, 0, false⟩ [(0, 40)] 30 40 20 true
    (by decide) (by decide) (by rfl)
  exact (h.1 ⟨by decide, by decide⟩).2.2.2.1 rfl 1 (by decide)

/-- Hole cards Ah 2h with board 3c 4d 5s Kc Jc. -/
def wheelSeven : List Card :=
  [⟨14, 1⟩, ⟨2, 1⟩, ⟨3, 3⟩, ⟨4, 2⟩, ⟨5, 0⟩, ⟨13, 3⟩, ⟨11, 3⟩]

set_option maxRecDepth 100000 in
/-- **C5.**  Any five cards whose ranks are A-2-3-4-5 (the wheel) are
classified by `evaluate_five` as a straight with high card 5 — category 5,
or 9 when the five cards are also a flush — never with the Ace as rank 14;
and `best_hand_rank` on Ah 2h | 3c 4d 5s Kc Jc returns category 5 with high
card 5. -/
theorem wheel_straight_high_is_five :
    (∀ cards : List Card, sortDesc (cards.map Card.rank) = [14, 5, 4, 3, 2] →
      evaluateFive cards = ((if isFlushOf cards then 9 else 5), [5])) ∧
    bestHandRank wheelSeven = (5, [5]) := by
  constructor
  · intro cards h
    unfold evaluateFive
    rw [h]
    cases hf : isFlushOf cards <;> simp [hf] <;> decide
  · decide

/-- A concrete non-flush wheel. -/
def wheelFive : List Card := [⟨14, 1⟩, ⟨2, 1⟩, ⟨3, 2⟩, ⟨4, 3⟩, ⟨5, 0⟩]

/-- Witness for C5 at a concrete wheel hand. -/
theorem wheel_straight_high_is_five_witness :
    evaluateFive wheelFive = ((if isFlushOf wheelFive then 9 else 5), [5]) :=
  wheel_straight_high_is_five.1 wheelFive (by decide)

/-- `listLex` compares a list with itself as equal. -/
theorem listLex_self (l : List Nat) : listLex l l = .eq := by
  induction l with
  | nil => rfl
  | cons a as ih => simp [listLex, ih]

/-- `rankCmp` compares a rank with itself as equal. -/
theorem rankCmp_self (a : Nat × List Nat) : rankCmp a a = .eq := by
  simp [rankCmp, listLex_self]

/-- Strictly greater ranks are distinct. -/
theorem rankCmp_gt_ne {a b : Nat × List Nat} (h : rankCmp a b = .gt) : a ≠ b := by
  intro he
  subst he
  simp [rankCmp_self] at h

/-- `listLex` is asymmetric. -/
theorem listLex_asymm : ∀ {a b : List Nat}, listLex a b = .gt → listLex b a = .lt
  | [], [], h => by simp [listLex] at h
  | [], _ :: _, h => by simp [listLex] at h
  | _ :: _, [], _ => by simp [listLex]
  | x :: xs, y :: ys, h => by
    simp only [listLex] at h ⊢
    split_ifs at h ⊢ <;> first | rfl | omega | exact listLex_asymm h

/-- `rankCmp` is asymmetric. -/
theorem rankCmp_asymm {a b : Nat × List Nat} (h : rankCmp a b = .gt) :
    rankCmp b a = .lt := by
  simp only [rankCmp] at h ⊢
  split_ifs at h ⊢ <;> first | rfl | omega | exact listLex_asymm h

/-- Three all-in seats with the given hole cards. -/
def threePlayers (h0 h1 h2 : List Card) : List Player :=
  [⟨0, 0, h0, 0, false, true, 0, 0, false⟩,
   ⟨1, 0, h1, 0, false, true, 0, 0, false⟩,
   ⟨2, 0, h2, 0, false, true, 0, 0, false⟩]

/-- Final cumulative contributions 100 / 300 / 500. -/
def threeContribs : List (Nat × Int) := [(0, 100), (1, 300), (2, 500)]

/-- The pot loop on the Scenario-B tiers: with seat0 > seat1 > seat2, the
300 pot goes to seat 0, the 400 pot to seat 1, and the 200 tier is refunded
to seat 2 (its only eligible contributor). -/
theorem awardPots_three (f : Nat → Nat × List Nat) (oddOrder : List Nat)
    (h01 : rankCmp (f 0) (f 1) = .gt) (h12 : rankCmp (f 1) (f 2) = .gt)
    (h02 : rankCmp (f 0) (f 2) = .gt) :
    awardPots f oddOrder [⟨300, [0, 1, 2]⟩, ⟨400, [1, 2]⟩, ⟨200, [2]⟩]
        [(0, 0), (1, 0), (2, 0)]
      = [(0, 300), (1, 400), (2, 200)] := by
  have l10 := rankCmp_asymm h01
  have l20 := rankCmp_asymm h02
  have l21 := rankCmp_asymm h12
  have n10 : (f 1 == f 0) = false := by
    simp [beq_eq_false_iff_ne]
    exact (rankCmp_gt_ne h01).symm
  have n20 : (f 2 == f 0) = false := by
    simp [beq_eq_false_iff_ne]
    exact (rankCmp_gt_ne h02).symm
  have n21 : (f 2 == f 1) = false := by
    simp [beq_eq_false_iff_ne]
    exact (rankCmp_gt_ne h12).symm
  have hOrdLt : (Ordering.lt == Ordering.gt) = false := rfl
  have hOrdEq : (Ordering.eq == Ordering.gt) = false := rfl
  have hOrdGt : (Ordering.gt == Ordering.gt) = true := rfl
  simp [awardPots, l10, l20, l21, n10, n20, n21, bumpSeat, hOrdLt, hOrdEq, hOrdGt,
    distributeOdd, (show Int.emod 300 1 = 0 from rfl), (show Int.emod 400 1 = 0 from rfl),
    (show Int.emod 200 1 = 0 from rfl), (show Int.ediv 300 1 = 300 from rfl),
    (show Int.ediv 400 1 = 400 from rfl), (show Int.ediv 200 1 = 200 from rfl)]

/-- **C4.**  Scenario B: three seats, no folds, cumulative contributions
100 / 300 / 500, hand strengths seat0 > seat1 > seat2.  The side-pot
resolver forms the tiers (100, {0,1,2}) worth 300 won by seat 0,
(300, {1,2}) worth 400 won by seat 1, and (500, {2}) worth 200 refunded to
seat 2; the resulting payouts are 300/400/200 and the per-seat deltas
+200 / +100 / −300, summing to zero. -/
theorem three_way_side_pots (h0 h1 h2 board : List Card)
    (hr01 : rankCmp (bestHandRank (h0 ++ board)) (bestHandRank (h1 ++ board)) = .gt)
    (hr12 : rankCmp (bestHandRank (h1 ++ board)) (bestHandRank (h2 ++ board)) = .gt)
    (hr02 : rankCmp (bestHandRank (h0 ++ board)) (bestHandRank (h2 ++ board)) = .gt) :
    buildSidePots (threePlayers h0 h1 h2) threeContribs
      = [⟨300, [0, 1, 2]⟩, ⟨400, [1, 2]⟩, ⟨200, [2]⟩] ∧
    resolveShowdown cfg3 (threePlayers h0 h1 h2) board threeContribs 0
      = .ok [(0, 300), (1, 400), (2, 200)] ∧
    (applyPayouts (threePlayers h0 h1 h2) threeContribs
        [(0, 300), (1, 400), (2, 200)] []).deltas
      = [(0, 200), (1, 100), (2, -300)] := by
  refine ⟨rfl, ?_, rfl⟩
  have key : ∀ f : Nat → Nat × List Nat,
      rankCmp (f 0) (f 1) = .gt → rankCmp (f 1) (f 2) = .gt →
      rankCmp (f 0) (f 2) = .gt →
      (Except.ok (awardPots f [1, 2, 0]
          [⟨300, [0, 1, 2]⟩, ⟨400, [1, 2]⟩, ⟨200, [2]⟩]
          [(0, 0), (1, 0), (2, 0)]) : Except EngineError (List (Nat × Int)))
        = .ok [(0, 300), (1, 400), (2, 200)] := by
    intro f a b c
    rw [awardPots_three f _ a b c]
  exact key _ hr01 hr12 hr02

/-- Scenario-B witness cards: seat 0 holds aces, seat 1 kings, seat 2 rags;
the board pairs no one. -/
def holeAces : List Card := [⟨14, 1⟩, ⟨14, 2⟩]

def holeKings : List Card := [⟨13, 1⟩, ⟨13, 2⟩]

def holeRags : List Card := [⟨3, 1⟩, ⟨4, 3⟩]

def dryBoard : List Card := [⟨2, 0⟩, ⟨5, 1⟩, ⟨9, 2⟩, ⟨11, 3⟩, ⟨12, 2⟩]

set_option maxRecDepth 400000 in
/-- Witness for C4 at concrete cards realising the seat0 > seat1 > seat2
strength ordering. -/
theorem three_way_side_pots_witness :
    buildSidePots (threePlayers holeAces holeKings holeRags) threeContribs
      = [⟨300, [0, 1, 2]⟩, ⟨400, [1, 2]⟩, ⟨200, [2]⟩] ∧
    resolveShowdown cfg3 (threePlayers holeAces holeKings holeRags) dryBoard
        threeContribs 0
      = .ok [(0, 300), (1, 400), (2, 200)] ∧
    (applyPayouts (threePlayers holeAces holeKings holeRags) threeContribs
        [(0, 300), (1, 400), (2, 200)] []).deltas
      = [(0, 200), (1, 100), (2, -300)] :=
  three_way_side_pots holeAces holeKings holeRags dryBoard
    (by decide) (by decide) (by decide)

set_option maxRecDepth 1000000 in
/-- **C1 (violated by the code).**  Chip conservation fails on a completed
hand.  6-max, blinds 5/10, no top-up, button seat 0, stacks
1000/1000/1000/8/5/1000: seats 3 and 4 call all-in for 8 and 5, seats 5, 0
and 1 fold, and the big blind (seat 2, already in for 10 with nothing to
call) folds — a legal action.  The hand runs out and goes to showdown
between seats 3 and 4.  `_build_side_pots` makes a (8,10] tier of size 2
whose only contributor (seat 2) folded, so its eligible list is empty and
`_resolve_showdown` skips it: payouts total 26 against contributions 28.
The returned deltas are (0, −5, −10, +8, +5, 0), summing to −2, not 0 —
two chips are destroyed. -/
theorem play_hand_chip_conservation_failure :
    (playHand cfg6 0 players6 agents6 fullDeck 60).map HandResult.deltas
      = .ok [(0, 0), (1, -5), (2, -10), (3, 8), (4, 5), (5, 0)] ∧
    (playHand cfg6 0 players6 agents6 fullDeck 60).map
        (fun r => contribsSum r.deltas) = .ok (-2) ∧
    (-2 : Int) ≠ 0 := by
  refine ⟨rfl, rfl, by decide⟩

/-- Witness for C3 at a concrete seat facing a bet. -/
theorem legal_actions_closure_witness :
    "fold" ∈ legalActions (freshPlayer 0 100) 10 true ∧
    ("check" ∈ legalActions (freshPlayer 0 100) 10 true ↔ (10 : Int) = 0) ∧
    ("call" ∈ legalActions (freshPlayer 0 100) 10 true ↔
      (0 : Int) < 10 ∧ (0 : Int) < (freshPlayer 0 100).stack) ∧
    ("raise_to" ∈ legalActions (freshPlayer 0 100) 10 true ↔
      true = true ∧ (0 : Int) < (freshPlayer 0 100).stack ∧
        (freshPlayer 0 100).bet + 10 < (freshPlayer 0 100).bet + (freshPlayer 0 100).stack) :=
  legal_actions_closure (freshPlayer 0 100) 10 true (by decide)

end GreenBench
namespace GreenBench

/-- Length of `insertDesc`. -/
theorem insertDesc_length (x : Nat) (l : List Nat) :
    (insertDesc x l).length = l.length + 1 := by
  induction l with
  | nil => rfl
  | cons y ys ih =>
    simp only [insertDesc]
    split_ifs <;> simp [ih]

/-- `sortDesc` preserves length. -/
theorem sortDesc_length (l : List Nat) : (sortDesc l).length = l.length := by
  induction l with
  | nil => rfl
  | cons x xs ih => simp [sortDesc, List.foldr] at ih ⊢; rw [insertDesc_length, ih]

/-- Membership in the dedup accumulator loop. -/
theorem mem_dedupAux (x : Nat) :
    ∀ (l seen : List Nat), x ∈ dedupAux seen l ↔ (x ∈ l ∧ x ∉ seen)
  | [], seen => by simp [dedupAux]
  | y :: ys, seen => by
    simp only [dedupAux]
    split_ifs with hy
    · rw [mem_dedupAux x ys seen]
      constructor
      · rintro ⟨h1, h2⟩
        exact ⟨List.mem_cons_of_mem _ h1, h2⟩
      · rintro ⟨h1, h2⟩
        rcases List.mem_cons.mp h1 with h | h
        · subst h; exact absurd hy h2
        · exact ⟨h, h2⟩
    · rw [List.mem_cons, mem_dedupAux x ys (y :: seen)]
      constructor
      · rintro (h | ⟨h1, h2⟩)
        · subst h; exact ⟨List.mem_cons_self _ _, hy⟩
        · simp only [List.mem_cons, not_or] at h2
          exact ⟨List.mem_cons_of_mem _ h1, h2.2⟩
      · rintro ⟨h1, h2⟩
        rcases List.mem_cons.mp h1 with h | h
        · exact Or.inl h
        · by_cases hxy : x = y
          · exact Or.inl hxy
          · exact Or.inr ⟨h, by simp [List.mem_cons, hxy, h2]⟩

/-- `dedupNat` has the same members as its input. -/
theorem mem_dedupNat (x : Nat) (l : List Nat) : x ∈ dedupNat l ↔ x ∈ l := by
  simp [dedupNat, mem_dedupAux]

/-- The dedup loop produces no duplicates. -/
theorem nodup_dedupAux : ∀ (l seen : List Nat), (dedupAux seen l).Nodup
  | [], _ => List.nodup_nil
  | y :: ys, seen => by
    simp only [dedupAux]
    split_ifs with hy
    · exact nodup_dedupAux ys seen
    · refine List.nodup_cons.mpr ⟨?_, nodup_dedupAux ys (y :: seen)⟩
      intro hmem
      exact ((mem_dedupAux y ys (y :: seen)).mp hmem).2 (List.mem_cons_self _ _)

/-- `dedupNat` produces no duplicates. -/
theorem nodup_dedupNat (l : List Nat) : (dedupNat l).Nodup := nodup_dedupAux l []

/-- `sortDesc` on a two-element list. -/
theorem sortDesc_pair (x y : Nat) :
    sortDesc [x, y] = if x ≥ y then [x, y] else [y, x] := rfl

/-- `sortDesc` on a three-element list. -/
theorem sortDesc_triple (x y z : Nat) :
    sortDesc [x, y, z] = insertDesc x (if y ≥ z then [y, z] else [z, y]) := rfl

/-- `max(counts, key=...)` on a two-rank dict picks the first rank when its
count dominates. -/
theorem maxByCountRank_pair_left (rs : List Nat) (a b : Nat)
    (h0 : rs.count 0 = 0 ∨ a = 0 ∨ b = 0)
    (hgt : rs.count b < rs.count a) :
    maxByCountRank rs [a, b] = a := by
  simp only [maxByCountRank, List.foldl]
  rcases h0 with h | h | h <;>
    (try subst h) <;> split_ifs <;>
      simp only [Bool.or_eq_true, Bool.and_eq_true, decide_eq_true_eq, beq_iff_eq,
        Bool.not_eq_true, not_or, not_and, not_lt] at * <;> omega

/-- `max(counts, key=...)` on a two-rank dict picks the second rank when its
count dominates. -/
theorem maxByCountRank_pair_right (rs : List Nat) (a b : Nat)
    (h0 : rs.count 0 = 0 ∨ a = 0 ∨ b = 0)
    (hgt : rs.count a < rs.count b) :
    maxByCountRank rs [a, b] = b := by
  simp only [maxByCountRank, List.foldl]
  rcases h0 with h | h | h <;>
    (try subst h) <;> split_ifs <;>
      simp only [Bool.or_eq_true, Bool.and_eq_true, decide_eq_true_eq, beq_iff_eq,
        Bool.not_eq_true, not_or, not_and, not_lt] at * <;> omega

/-- Inverting a two-element descending sort. -/
theorem pair_of_sortDesc {x y u v : Nat} (h : sortDesc [x, y] = [u, v]) :
    (x = u ∧ y = v) ∨ (x = v ∧ y = u) := by
  rw [sortDesc_pair] at h
  split_ifs at h <;> simp_all

/-- Inverting a three-element descending sort against `[2, 2, 1]`. -/
theorem triple_of_sortDesc_221 {x y z : Nat} (h : sortDesc [x, y, z] = [2, 2, 1]) :
    (x = 2 ∧ y = 2 ∧ z = 1) ∨ (x = 2 ∧ y = 1 ∧ z = 2) ∨ (x = 1 ∧ y = 2 ∧ z = 2) := by
  rw [sortDesc_triple] at h
  split_ifs at h <;> simp only [insertDesc] at h <;>
    split_ifs at h <;> simp_all

/-- In the quads branch (`count_values == [4, 1]`), the picked `four_rank`
has multiplicity 4 and the kicker list is exactly the remaining rank of
multiplicity 1. -/
theorem evalFiveAux_quads (rs : List Nat)
    (hcv : sortDesc ((dedupNat rs).map (fun r => rs.count r)) = [4, 1]) :
    ∃ f k, maxByCountRank rs (dedupNat rs) = f ∧
      (dedupNat rs).filter (fun r => r ≠ maxByCountRank rs (dedupNat rs)) = [k] ∧
      rs.count f = 4 ∧ rs.count k = 1 ∧ f ≠ k := by
  have hlen : (dedupNat rs).length = 2 := by
    have h1 := sortDesc_length ((dedupNat rs).map (fun r => rs.count r))
    rw [hcv] at h1
    simpa using h1.symm
  obtain ⟨a, b, hab⟩ := List.length_eq_two.mp hlen
  have hne : a ≠ b := by
    have h := nodup_dedupNat rs
    rw [hab] at h
    simpa using (List.nodup_cons.mp h).1
  have h0 : rs.count 0 = 0 ∨ a = 0 ∨ b = 0 := by
    by_cases ha : a = 0
    · exact Or.inr (Or.inl ha)
    by_cases hb : b = 0
    · exact Or.inr (Or.inr hb)
    left
    rw [List.count_eq_zero]
    intro hmem
    have : (0 : Nat) ∈ dedupNat rs := (mem_dedupNat 0 rs).mpr hmem
    rw [hab] at this
    simp [List.mem_cons, ha, hb] at this
    omega
  have hcv' : sortDesc [rs.count a, rs.count b] = [4, 1] := by
    rw [hab] at hcv
    simpa using hcv
  rcases pair_of_sortDesc hcv' with ⟨ha4, hb1⟩ | ⟨ha1, hb4⟩
  · have hmax : maxByCountRank rs (dedupNat rs) = a := by
      rw [hab]
      exact maxByCountRank_pair_left rs a b h0 (by omega)
    refine ⟨a, b, hmax, ?_, ha4, hb1, hne⟩
    rw [hab]
    rw [show maxByCountRank rs [a, b] = a from maxByCountRank_pair_left rs a b h0 (by omega)]
    simp [List.filter, hne, Ne.symm hne]
  · have hmax : maxByCountRank rs (dedupNat rs) = b := by
      rw [hab]
      exact maxByCountRank_pair_right rs a b h0 (by omega)
    refine ⟨b, a, hmax, ?_, hb4, ha1, Ne.symm hne⟩
    rw [hab]
    rw [show maxByCountRank rs [a, b] = b from maxByCountRank_pair_right rs a b h0 (by omega)]
    simp [List.filter, hne, Ne.symm hne]

/-- In the full-house branch (`count_values == [3, 2]`), the trips and pair
rank filters are singletons with the right multiplicities. -/
theorem evalFiveAux_fullhouse (rs : List Nat)
    (hcv : sortDesc ((dedupNat rs).map (fun r => rs.count r)) = [3, 2]) :
    ∃ t p, (dedupNat rs).filter (fun r => rs.count r == 3) = [t] ∧
      (dedupNat rs).filter (fun r => rs.count r == 2) = [p] ∧
      rs.count t = 3 ∧ rs.count p = 2 ∧ t ≠ p := by
  have hlen : (dedupNat rs).length = 2 := by
    have h1 := sortDesc_length ((dedupNat rs).map (fun r => rs.count r))
    rw [hcv] at h1
    simpa using h1.symm
  obtain ⟨a, b, hab⟩ := List.length_eq_two.mp hlen
  have hne : a ≠ b := by
    have h := nodup_dedupNat rs
    rw [hab] at h
    simpa using (List.nodup_cons.mp h).1
  have hcv' : sortDesc [rs.count a, rs.count b] = [3, 2] := by
    rw [hab] at hcv
    simpa using hcv
  rcases pair_of_sortDesc hcv' with ⟨ha3, hb2⟩ | ⟨ha2, hb3⟩
  · exact ⟨a, b, by rw [hab]; simp [List.filter, ha3, hb2], by rw [hab]; simp [List.filter, ha3, hb2],
      ha3, hb2, hne⟩
  · exact ⟨b, a, by rw [hab]; simp [List.filter, ha2, hb3], by rw [hab]; simp [List.filter, ha2, hb3],
      hb3, ha2, Ne.symm hne⟩

/-- In the two-pair branch (`count_values == [2, 2, 1]`), the sorted pair
ranks are a descending two-element list of multiplicity-2 ranks and the
kicker filter is the single multiplicity-1 rank. -/
theorem evalFiveAux_twopair (rs : List Nat)
    (hcv : sortDesc ((dedupNat rs).map (fun r => rs.count r)) = [2, 2, 1]) :
    ∃ a b k, sortDesc ((dedupNat rs).filter (fun r => rs.count r == 2)) = [a, b] ∧
      (dedupNat rs).filter (fun r => rs.count r == 1) = [k] ∧
      b ≤ a ∧ rs.count a = 2 ∧ rs.count b = 2 ∧ rs.count k = 1 := by
  have hlen : (dedupNat rs).length = 3 := by
    have h1 := sortDesc_length ((dedupNat rs).map (fun r => rs.count r))
    rw [hcv] at h1
    simpa using h1.symm
  obtain ⟨x, y, z, hxyz⟩ := List.length_eq_three.mp hlen
  have hcv' : sortDesc [rs.count x, rs.count y, rs.count z] = [2, 2, 1] := by
    rw [hxyz] at hcv
    simpa using hcv
  rcases triple_of_sortDesc_221 hcv' with ⟨h1, h2, h3⟩ | ⟨h1, h2, h3⟩ | ⟨h1, h2, h3⟩
  · -- counts (2, 2, 1): pairs are x and y, kicker z
    by_cases hxy : x ≥ y
    · exact ⟨x, y, z, by rw [hxyz]; simp [List.filter, h1, h2, h3, sortDesc_pair, hxy],
        by rw [hxyz]; simp [List.filter, h1, h2, h3], by omega, h1, h2, h3⟩
    · exact ⟨y, x, z, by rw [hxyz]; simp [List.filter, h1, h2, h3, sortDesc_pair, hxy],
        by rw [hxyz]; simp [List.filter, h1, h2, h3], by omega, h2, h1, h3⟩
  · -- counts (2, 1, 2): pairs are x and z, kicker y
    by_cases hxz : x ≥ z
    · exact ⟨x, z, y, by rw [hxyz]; simp [List.filter, h1, h2, h3, sortDesc_pair, hxz],
        by rw [hxyz]; simp [List.filter, h1, h2, h3], by omega, h1, h3, h2⟩
    · exact ⟨z, x, y, by rw [hxyz]; simp [List.filter, h1, h2, h3, sortDesc_pair, hxz],
        by rw [hxyz]; simp [List.filter, h1, h2, h3], by omega, h3, h1, h2⟩
  · -- counts (1, 2, 2): pairs are y and z, kicker x
    by_cases hyz : y ≥ z
    · exact ⟨y, z, x, by rw [hxyz]; simp [List.filter, h1, h2, h3, sortDesc_pair, hyz],
        by rw [hxyz]; simp [List.filter, h1, h2, h3], by omega, h2, h3, h1⟩
    · exact ⟨z, y, x, by rw [hxyz]; simp [List.filter, h1, h2, h3, sortDesc_pair, hyz],
        by rw [hxyz]; simp [List.filter, h1, h2, h3], by omega, h3, h2, h1⟩

end GreenBench

namespace GreenBench

/-- `max` of a one-element list. -/
theorem listMax_singleton (k : Nat) : listMax [k] = k := by
  simp [listMax, List.foldl]

/-- Shape of the `evaluate_five` result as a function of the descending
rank list and the flush flag. -/
theorem evalFiveAux_shapes (rs : List Nat) (fl : Bool) :
    (1 ≤ (evalFiveAux rs fl).1 ∧ (evalFiveAux rs fl).1 ≤ 9) ∧
    ((evalFiveAux rs fl).1 = 8 → ∃ f k, (evalFiveAux rs fl).2 = [f, k] ∧
      rs.count f = 4 ∧ rs.count k = 1 ∧ f ≠ k) ∧
    ((evalFiveAux rs fl).1 = 7 → ∃ t p, (evalFiveAux rs fl).2 = [t, p] ∧
      rs.count t = 3 ∧ rs.count p = 2 ∧ t ≠ p) ∧
    ((evalFiveAux rs fl).1 = 3 → ∃ a b k, (evalFiveAux rs fl).2 = [a, b, k] ∧
      b ≤ a ∧ rs.count a = 2 ∧ rs.count b = 2 ∧ rs.count k = 1) ∧
    (((evalFiveAux rs fl).1 = 6 ∨ (evalFiveAux rs fl).1 = 1) → (evalFiveAux rs fl).2 = rs) ∧
    (((evalFiveAux rs fl).1 = 9 ∨ (evalFiveAux rs fl).1 = 5) →
      ∃ hc, (evalFiveAux rs fl).2 = [hc] ∧ straightHigh (dedupNat rs) = some hc) := by
  rcases hck : evalFiveAux rs fl with ⟨c, ks⟩
  simp only
  simp only [evalFiveAux] at hck
  split_ifs at hck with hA hB hC hD hE hF hG hH
  all_goals (injection hck with hc hks)
  all_goals (subst hc; subst hks)
  · refine ⟨by norm_num, by simp, by simp, by simp, by simp, fun _ => ?_⟩
    rcases ho : straightHigh (dedupNat rs) with _ | hc
    · rw [ho] at hA; simp at hA
    · exact ⟨hc, rfl, rfl⟩
  · refine ⟨by norm_num, fun _ => ?_, by simp, by simp, by simp, by simp⟩
    obtain ⟨f, k, hmax, hfilt, hf, hk, hne⟩ := evalFiveAux_quads rs (by
      simpa using hB)
    rw [hmax] at hfilt
    exact ⟨f, k, by rw [hmax, hfilt, listMax_singleton], hf, hk, hne⟩
  · refine ⟨by norm_num, by simp, fun _ => ?_, by simp, by simp, by simp⟩
    obtain ⟨t, p, hft, hfp, ht, hp, hne⟩ := evalFiveAux_fullhouse rs (by
      simpa using hC)
    exact ⟨t, p, by rw [hft, hfp, listMax_singleton, listMax_singleton], ht, hp, hne⟩
  · exact ⟨by norm_num, by simp, by simp, by simp, fun _ => rfl, by simp⟩
  · refine ⟨by norm_num, by simp, by simp, by simp, by simp, fun _ => ?_⟩
    rcases ho : straightHigh (dedupNat rs) with _ | hc
    · rw [ho] at hE; simp at hE
    · exact ⟨hc, rfl, rfl⟩
  · exact ⟨by norm_num, by simp, by simp, by simp, by simp, by simp⟩
  · refine ⟨by norm_num, by simp, by simp, fun _ => ?_, by simp, by simp⟩
    obtain ⟨a, b, k, hpair, hfiltk, hba, ha, hb, hk⟩ := evalFiveAux_twopair rs (by
      simpa using hG)
    exact ⟨a, b, k, by rw [hpair, hfiltk, listMax_singleton]; rfl, hba, ha, hb, hk⟩
  · exact ⟨by norm_num, by simp, by simp, by simp, by simp, by simp⟩
  · exact ⟨by norm_num, by simp, by simp, by simp, fun _ => rfl, by simp⟩

/-- `insertDesc` permutes. -/
theorem insertDesc_perm (x : Nat) (l : List Nat) : List.Perm (insertDesc x l) (x :: l) := by
  induction l with
  | nil => rfl
  | cons y ys ih =>
    simp only [insertDesc]
    split_ifs
    · rfl
    · exact ((ih.cons y).trans (List.Perm.swap x y ys))

/-- `sortDesc` is a permutation of its input. -/
theorem sortDesc_perm (l : List Nat) : List.Perm (sortDesc l) l := by
  induction l with
  | nil => rfl
  | cons x xs ih =>
    exact (insertDesc_perm x (sortDesc xs)).trans (ih.cons x)

/-- A non-flush 6-high straight. -/
def straightSix : List Card := [⟨6, 0⟩, ⟨5, 1⟩, ⟨4, 2⟩, ⟨3, 3⟩, ⟨2, 0⟩]

/-- **C6 counterexample.**  The claim says straights carry the full
descending five-rank list as kicker tuple; `evaluate_five` on the 6-high
straight returns `(5, [6])` — just the straight high card, not
`[6, 5, 4, 3, 2]`. -/
theorem straight_kickers_not_full_rank_list :
    evaluateFive straightSix = (5, [6]) ∧
    sortDesc (straightSix.map Card.rank) = [6, 5, 4, 3, 2] ∧
    (evaluateFive straightSix).2 ≠ sortDesc (straightSix.map Card.rank) := by
  refine ⟨by decide, by decide, by decide⟩

/-- What `straightHigh rankSet = some hc` means: either the loop
`for start in range(14, 3, -1)` found `hc` with
`window == rank_set and len(rank_set) == 5`, or the wheel special case
fired, giving `hc = 5` with rank set `{14, 5, 4, 3, 2}`. -/
theorem straightHigh_spec {rankSet : List Nat} {hc : Nat}
    (h : straightHigh rankSet = some hc) :
    windowEq rankSet hc = true ∨
      (hc = 5 ∧ listSetEq [14, 5, 4, 3, 2] rankSet = true) := by
  rcases hf : ((List.range 11).map (fun i => 14 - i)).find?
      (fun s => windowEq rankSet s) with _ | s
  · simp only [straightHigh, hf] at h
    split_ifs at h with hw
    · injection h with h5
      exact Or.inr ⟨h5.symm, hw⟩
  · simp only [straightHigh, hf] at h
    injection h with hs
    subst hs
    exact Or.inl (List.find?_some hf)

/-- **C6 (amended).**  For every five-card hand, `evaluate_five` returns
`(category, kicker_tuple)` with category in 1..9, where: for quads the
kickers are `[four_rank, kicker]` (multiplicities 4 and 1 among the hand's
ranks); for a full house `[trips_rank, pair_rank]` (multiplicities 3 and
2); for two pair `[high_pair, low_pair, kicker]` (multiplicities 2, 2, 1,
pairs in descending order); for flush and high-card hands the full
descending list of the five ranks; and for straights and straight flushes
a single element equal to the straight high card: the value produced by
the straight-high search on the hand's rank set, i.e. the unique `hc`
whose 5-window equals the rank set, or 5 via the wheel special case. -/
theorem evaluate_five_kicker_shapes (cards : List Card) :
    (1 ≤ (evaluateFive cards).1 ∧ (evaluateFive cards).1 ≤ 9) ∧
    ((evaluateFive cards).1 = 8 → ∃ f k, (evaluateFive cards).2 = [f, k] ∧
      (cards.map Card.rank).count f = 4 ∧ (cards.map Card.rank).count k = 1 ∧ f ≠ k) ∧
    ((evaluateFive cards).1 = 7 → ∃ t p, (evaluateFive cards).2 = [t, p] ∧
      (cards.map Card.rank).count t = 3 ∧ (cards.map Card.rank).count p = 2 ∧ t ≠ p) ∧
    ((evaluateFive cards).1 = 3 → ∃ a b k, (evaluateFive cards).2 = [a, b, k] ∧
      b ≤ a ∧ (cards.map Card.rank).count a = 2 ∧ (cards.map Card.rank).count b = 2 ∧
      (cards.map Card.rank).count k = 1) ∧
    (((evaluateFive cards).1 = 6 ∨ (evaluateFive cards).1 = 1) →
      (evaluateFive cards).2 = sortDesc (cards.map Card.rank)) ∧
    (((evaluateFive cards).1 = 9 ∨ (evaluateFive cards).1 = 5) →
      ∃ hc, (evaluateFive cards).2 = [hc] ∧
        straightHigh (dedupNat (sortDesc (cards.map Card.rank))) = some hc ∧
        (windowEq (dedupNat (sortDesc (cards.map Card.rank))) hc = true ∨
          (hc = 5 ∧ listSetEq [14, 5, 4, 3, 2]
            (dedupNat (sortDesc (cards.map Card.rank))) = true))) := by
  have hcount : ∀ r : Nat, (sortDesc (cards.map Card.rank)).count r
      = (cards.map Card.rank).count r :=
    fun r => (sortDesc_perm (cards.map Card.rank)).count_eq r
  have h := evalFiveAux_shapes (sortDesc (cards.map Card.rank)) (isFlushOf cards)
  simp only [hcount] at h
  refine ⟨h.1, h.2.1, h.2.2.1, h.2.2.2.1, h.2.2.2.2.1, fun hcat => ?_⟩
  obtain ⟨hc, hks, hsh⟩ := h.2.2.2.2.2 hcat
  exact ⟨hc, hks, hsh, straightHigh_spec hsh⟩

end GreenBench
namespace GreenBench

/-- Elements of `setPlayer players q` are `q` or original elements. -/
theorem mem_setPlayer {players : List Player} {q p : Player}
    (hp : p ∈ setPlayer players q) : p = q ∨ p ∈ players := by
  simp only [setPlayer, List.mem_map] at hp
  obtain ⟨r, hr, hrp⟩ := hp
  by_cases h : r.seatId = q.seatId
  · simp [h] at hrp
    exact Or.inl hrp.symm
  · simp [h] at hrp
    exact Or.inr (hrp ▸ hr)

/-- `setPlayer` preserves a per-player lower bound on stacks. -/
theorem setPlayer_nonneg {players : List Player} {q : Player}
    (h : ∀ p ∈ players, 0 ≤ p.stack) (hq : 0 ≤ q.stack) :
    ∀ p ∈ setPlayer players q, 0 ≤ p.stack := by
  intro p hp
  rcases mem_setPlayer hp with e | hm
  · exact e ▸ hq
  · exact h p hm

/-- A successful seat lookup returns an element of the seat map. -/
theorem getPlayer_mem {players : List Player} {seat : Nat} {p : Player}
    (h : getPlayer players seat = some p) : p ∈ players :=
  List.mem_of_find?_eq_some h

/-- `_apply_fold` does not move chips. -/
theorem applyFold_stack (p : Player) : (applyFold p).stack = p.stack := rfl

/-- `_apply_call` keeps a non-negative stack non-negative. -/
theorem applyCall_nonneg (player : Player) (toCall : Int)
    (contribs : List (Nat × Int)) ( _h : 0 ≤ player.stack) :
    0 ≤ (applyCall player toCall contribs).1.stack := by
  simp only [applyCall]
  split_ifs <;> simp_all

/-- `_apply_raise_to` never leaves a negative stack: the target is clamped
to `bet + stack`. -/
theorem applyRaiseTo_nonneg (cfg : EngineConfig) (player : Player)
    (desired : Option Int) (currentBet lastFullRaise : Int)
    (contribs : List (Nat × Int)) ( _h : 0 ≤ player.stack) :
    ∀ (p' : Player) (c' : List (Nat × Int)) (added cb' lfr' : Int) (full : Bool),
      applyRaiseTo cfg player desired currentBet lastFullRaise contribs
        = .ok (p', c', added, cb', lfr', full) → 0 ≤ p'.stack := by
  intro p' c' added cb' lfr' full hrun
  match desired with
  | none => simp [applyRaiseTo] at hrun
  | some d =>
    simp only [applyRaiseTo, pure, Except.pure] at hrun
    split_ifs at hrun <;>
      simp only [Except.ok.injEq, Prod.mk.injEq] at hrun <;>
        obtain ⟨hp, -⟩ := hrun <;> subst hp <;> simp_all <;> omega

/-- The decision step only touches the penalty counters of the seat record,
never its stack or bet. -/
theorem obtainDecision_stack (cfg : EngineConfig) (agent : Agent)
    (request : ActionRequest) (seat : Nat) (player : Player)
    (legal : List String) (toCall currentBet lastFullRaise : Int) :
    ∀ o, obtainDecision cfg agent request seat player legal toCall currentBet
        lastFullRaise = .ok o →
      o.player.stack = player.stack ∧ o.player.bet = player.bet := by
  intro o h
  simp only [obtainDecision, invokeAgent, agentAct] at h
  rcases hagent : agent request with ⟨raw, wall⟩
  rw [hagent] at h
  match raw with
  | .malformed => simp [Bind.bind, Except.bind] at h
  | .wellFormed r =>
    simp only [Bind.bind, Except.bind, pure, Except.pure] at h
    split_ifs at h <;>
      simp only [Except.ok.injEq] at h <;>
        subst h <;> simp

end GreenBench
namespace GreenBench

/-- Splitting a successful `Except` bind. -/
theorem except_bind_ok {ε α β : Type} {e : Except ε α} {f : α → Except ε β} {b : β}
    (h : (e >>= f) = .ok b) : ∃ a, e = .ok a ∧ f a = .ok b := by
  cases e with
  | error e => simp [Bind.bind, Except.bind] at h
  | ok a => exact ⟨a, rfl, by simpa [Bind.bind, Except.bind] using h⟩

/-- `requeue` only changes the queue. -/
theorem requeue_players {ctx : RoundCtx} {st st' : RoundState}
    (h : requeue ctx st = some st') : st'.players = st.players := by
  simp only [requeue] at h
  split_ifs at h <;> (injection h with h; subst h) <;> rfl

/-- One applied decision keeps every stack non-negative. -/
theorem seatDecision_players (cfg : EngineConfig) (agents : Nat → Agent)
    (ctx : RoundCtx) (seat : Nat) (player : Player) (st : RoundState)
    (h : ∀ p ∈ st.players, 0 ≤ p.stack) (hp : 0 ≤ player.stack) :
    ∀ st2, seatDecision cfg agents ctx seat player st = .ok st2 →
      ∀ p ∈ st2.players, 0 ≤ p.stack := by
  intro st2 hrun
  simp only [seatDecision] at hrun
  obtain ⟨o, hobt, hrest⟩ := except_bind_ok hrun
  have hos : o.player.stack = player.stack :=
    (obtainDecision_stack cfg (agents seat) _ seat player _ _ _ _ o hobt).1
  have h1 : ∀ p ∈ setPlayer st.players o.player, 0 ≤ p.stack :=
    setPlayer_nonneg h (hos ▸ hp)
  split at hrest
  · -- fold
    simp only [Bind.bind, Except.bind, pure, Except.pure, Except.ok.injEq] at hrest
    subst hrest
    exact setPlayer_nonneg h1 (by rw [applyFold_stack]; exact hos ▸ hp)
  · split at hrest
    · -- check
      obtain ⟨u, -, hrest2⟩ := except_bind_ok hrest
      simp only [Bind.bind, Except.bind, pure, Except.pure, Except.ok.injEq] at hrest2
      subst hrest2
      exact h1
    · split at hrest
      · -- call
        simp only [Bind.bind, Except.bind, pure, Except.pure, Except.ok.injEq] at hrest
        subst hrest
        exact setPlayer_nonneg h1 (applyCall_nonneg o.player _ _ (hos ▸ hp))
      · split at hrest
        · -- raise
          obtain ⟨⟨p', c', added, cb', lfr', fu⟩, hraise, hrest2⟩ := except_bind_ok hrest
          simp only [Bind.bind, Except.bind, pure, Except.pure, Except.ok.injEq] at hrest2
          subst hrest2
          exact setPlayer_nonneg h1
            (applyRaiseTo_nonneg cfg o.player _ _ _ _ (hos ▸ hp) p' c' added cb' lfr' fu hraise)
        · -- unsupported tag
          simp [throw, throwThe, MonadExceptOf.throw] at hrest

/-- The bottom-of-loop bookkeeping either finishes with the same state,
loops with the same state, or loops with a re-queued state. -/
theorem postActionOutcome_cases (ctx : RoundCtx) (st' : RoundState) :
    (∃ rr, postActionOutcome ctx st' = .finished (rr, st')) ∨
    (postActionOutcome ctx st' = .next st') ∨
    (∃ st2, postActionOutcome ctx st' = .next st2 ∧ requeue ctx st' = some st2) := by
  simp only [postActionOutcome, roundFinish]
  split_ifs
  · exact Or.inl ⟨_, rfl⟩
  · exact Or.inl ⟨_, rfl⟩
  · rcases hreq : requeue ctx st' with _ | st2
    · exact Or.inl ⟨_, rfl⟩
    · exact Or.inr (Or.inr ⟨st2, rfl, rfl⟩)
  · exact Or.inr (Or.inl rfl)

/-- The bottom-of-loop bookkeeping does not change the seat map. -/
theorem postActionOutcome_players (ctx : RoundCtx) (st' : RoundState)
    (h : ∀ p ∈ st'.players, 0 ≤ p.stack) :
    (∀ rr stF, postActionOutcome ctx st' = .finished (rr, stF) →
      ∀ p ∈ stF.players, 0 ≤ p.stack) ∧
    (∀ stN, postActionOutcome ctx st' = .next stN →
      ∀ p ∈ stN.players, 0 ≤ p.stack) := by
  rcases postActionOutcome_cases ctx st' with ⟨rr0, heq⟩ | heq | ⟨st2, heq, hreq⟩
  · refine ⟨?_, ?_⟩
    · intro rr stF hout
      rw [heq] at hout
      simp only [StepOutcome.finished.injEq, Prod.mk.injEq] at hout
      exact hout.2 ▸ h
    · intro stN hout
      rw [heq] at hout
      simp at hout
  · refine ⟨?_, ?_⟩
    · intro rr stF hout
      rw [heq] at hout
      simp at hout
    · intro stN hout
      rw [heq] at hout
      simp only [StepOutcome.next.injEq] at hout
      exact hout ▸ h
  · refine ⟨?_, ?_⟩
    · intro rr stF hout
      rw [heq] at hout
      simp at hout
    · intro stN hout
      rw [heq] at hout
      simp only [StepOutcome.next.injEq] at hout
      subst hout
      rw [requeue_players hreq]
      exact h

/-- One loop iteration keeps every stack non-negative. -/
theorem bettingStep_players (cfg : EngineConfig) (agents : Nat → Agent)
    (ctx : RoundCtx) (st : RoundState)
    (h : ∀ p ∈ st.players, 0 ≤ p.stack) :
    ∀ out, bettingStep cfg agents ctx st = .ok out →
      (∀ rr stF, out = .finished (rr, stF) → ∀ p ∈ stF.players, 0 ≤ p.stack) ∧
      (∀ stN, out = .next stN → ∀ p ∈ stN.players, 0 ≤ p.stack) := by
  intro out hout
  rcases hq : st.queue with _ | ⟨seat, rest⟩ <;> simp only [bettingStep, hq] at hout
  · simp only [pure, Except.pure, Except.ok.injEq] at hout
    subst hout
    constructor
    · intro rr stF hfin
      simp only [roundFinish, StepOutcome.finished.injEq, Prod.mk.injEq] at hfin
      obtain ⟨-, h2⟩ := hfin
      subst h2
      exact h
    · intro stN hnext
      simp at hnext
  · cases hgp : getPlayer st.players seat with
    | none =>
      rw [show getPlayer ({ st with queue := rest } : RoundState).players seat
        = getPlayer st.players seat from rfl] at hout
      simp only [hgp] at hout
      simp [throw, throwThe, MonadExceptOf.throw] at hout
    | some player =>
      rw [show getPlayer ({ st with queue := rest } : RoundState).players seat
        = getPlayer st.players seat from rfl] at hout
      simp only [hgp] at hout
      have hpmem : 0 ≤ player.stack := h player (getPlayer_mem hgp)
      split at hout
      · -- skip
        simp only [pure, Except.pure, Except.ok.injEq] at hout
        subst hout
        exact ⟨fun rr stF hfin => by simp at hfin,
          fun stN hnext => by
            injection hnext with hnext
            subst hnext
            exact h⟩
      · split at hout
        · split at hout
          · -- requeue match
            split at hout
            · rename_i st2 hreq
              simp only [pure, Except.pure, Except.ok.injEq] at hout
              subst hout
              exact ⟨fun rr stF hfin => by simp at hfin,
                fun stN hnext => by
                  injection hnext with hnext
                  subst hnext
                  rw [requeue_players hreq]
                  exact h⟩
            · simp only [pure, Except.pure, Except.ok.injEq] at hout
              subst hout
              exact ⟨fun rr stF hfin => by
                  simp only [roundFinish, StepOutcome.finished.injEq, Prod.mk.injEq] at hfin
                  obtain ⟨-, h2⟩ := hfin
                  subst h2
                  exact h,
                fun stN hnext => by simp at hnext⟩
          · simp only [pure, Except.pure, Except.ok.injEq] at hout
            subst hout
            exact ⟨fun rr stF hfin => by simp at hfin,
              fun stN hnext => by
                injection hnext with hnext
                subst hnext
                exact h⟩
        · -- decision
          obtain ⟨st1, hsd, hpure⟩ := except_bind_ok hout
          simp only [pure, Except.pure, Except.ok.injEq] at hpure
          subst hpure
          have hinv1 := seatDecision_players cfg agents ctx seat player { st with queue := rest } h hpmem st1 hsd
          exact postActionOutcome_players ctx st1 hinv1

/-- The whole betting loop keeps every stack non-negative. -/
theorem bettingLoop_stacks_nonneg (cfg : EngineConfig) (agents : Nat → Agent)
    (ctx : RoundCtx) :
    ∀ (fuel : Nat) (st : RoundState),
      (∀ p ∈ st.players, 0 ≤ p.stack) →
      ∀ rr st', bettingLoop cfg agents ctx fuel st = .ok (rr, st') →
        ∀ p ∈ st'.players, 0 ≤ p.stack := by
  intro fuel
  induction fuel with
  | zero =>
    intro st h rr st' hrun
    simp [bettingLoop, throw, throwThe, MonadExceptOf.throw] at hrun
  | succ n ih =>
    intro st h rr st' hrun
    rw [bettingLoop] at hrun
    obtain ⟨out, hstep, hcont⟩ := except_bind_ok hrun
    have hinv := bettingStep_players cfg agents ctx st h out hstep
    cases out with
    | finished res =>
      rcases res with ⟨rr2, stF⟩
      simp only [pure, Except.pure, Except.ok.injEq, Prod.mk.injEq] at hcont
      exact hcont.2 ▸ hinv.1 rr2 stF rfl
    | next stN =>
      exact ih stN (hinv.2 stN rfl) rr st' hcont

end GreenBench

namespace GreenBench

/-- `_betting_round` (entry guards plus the whole loop) keeps every stack
non-negative. -/
theorem bettingRound_stacks_nonneg (cfg : EngineConfig) (agents : Nat → Agent)
    (street : String) (buttonSeat fuel : Nat) (players : List Player)
    (contribs : List (Nat × Int)) (board : List Card)
    (actionHistory : List ActionHistoryEntry) (log : List LogEvent)
    (currentBet lastFullRaise pot : Int)
    (h : ∀ p ∈ players, 0 ≤ p.stack) :
    ∀ rr st', bettingRound cfg agents street buttonSeat fuel players contribs
        board actionHistory log currentBet lastFullRaise pot = .ok (rr, st') →
      ∀ p ∈ st'.players, 0 ≤ p.stack := by
  intro rr st' hrun
  simp only [bettingRound] at hrun
  split_ifs at hrun
  · simp only [pure, Except.pure, Except.ok.injEq, Prod.mk.injEq] at hrun
    exact hrun.2 ▸ h
  · simp only [pure, Except.pure, Except.ok.injEq, Prod.mk.injEq] at hrun
    exact hrun.2 ▸ h
  · exact bettingLoop_stacks_nonneg cfg agents _ fuel _ h rr st' hrun

/-- **C10.**  Every chip-moving operation clamps the amount taken to the
seat's available stack: `_post_blind` and `_post_ante` post
`min(amount, stack)`, `_apply_call` moves `min(to_call, stack)`, and
`_apply_raise_to` clamps the target to `bet + stack` — each keeps a
non-negative stack non-negative; consequently an entire betting round
(`_betting_round`, covering every in-street chip movement of a hand)
keeps every seat's stack non-negative at every point.  These are the only
operations that decrease a stack; `_apply_payouts` only adds winnings. -/
theorem chip_ops_clamp_to_stack
    (player : Player) (amount toCall : Int) (contribs : List (Nat × Int))
    (blindType : String) (cfg : EngineConfig) (desired : Option Int)
    (currentBet lastFullRaise : Int) (agents : Nat → Agent) (street : String)
    (buttonSeat fuel : Nat) (players : List Player) (board : List Card)
    (actionHistory : List ActionHistoryEntry) (log : List LogEvent)
    (cb lfr pot : Int)
    (h : 0 ≤ player.stack) (hall : ∀ p ∈ players, 0 ≤ p.stack) :
    0 ≤ (postBlind player amount contribs blindType).1.stack ∧
    0 ≤ (postAnte player amount contribs).1.stack ∧
    0 ≤ (applyCall player toCall contribs).1.stack ∧
    (∀ (p' : Player) (c' : List (Nat × Int)) (added cb' lfr' : Int) (full : Bool),
      applyRaiseTo cfg player desired currentBet lastFullRaise contribs
        = .ok (p', c', added, cb', lfr', full) → 0 ≤ p'.stack) ∧
    (∀ rr st', bettingRound cfg agents street buttonSeat fuel players contribs
        board actionHistory log cb lfr pot = .ok (rr, st') →
      ∀ p ∈ st'.players, 0 ≤ p.stack) := by
  refine ⟨?_, ?_, applyCall_nonneg player toCall contribs h,
    applyRaiseTo_nonneg cfg player desired currentBet lastFullRaise contribs h,
    bettingRound_stacks_nonneg cfg agents street buttonSeat fuel players contribs
      board actionHistory log cb lfr pot hall⟩
  · simp only [postBlind]
    split_ifs <;> simp_all
  · simp only [postAnte]
    split_ifs <;> simp_all

/-- Witness for C10: a 3-chip stack posting a 5-chip blind or ante, or
calling 10, stays non-negative. -/
theorem chip_ops_clamp_to_stack_witness :
    0 ≤ (postBlind (freshPlayer 0 3) 5 [(0, 0)] "small").1.stack ∧
    0 ≤ (postAnte (freshPlayer 0 3) 5 [(0, 0)]).1.stack ∧
    0 ≤ (applyCall (freshPlayer 0 3) 10 [(0, 0)]).1.stack := by
  have h := chip_ops_clamp_to_stack (freshPlayer 0 3) 5 10 [(0, 0)] "small" cfg3
    (some 2) 10 10 agents6 "preflop" 0 10 players6 [] [] [] 10 10 0 (by decide)
    (by decide)
  exact ⟨h.1, h.2.1, h.2.2.1⟩

end GreenBench
